import Mathlib

/-!
# Vertical image stitching: alignment search and composition

A shallow embedding of `src/stitching.cpp`.

* A `cv::Mat` of type `CV_8U` is a header (`rows`, `cols`, `step`, `start`)
  over a shared row-major pixel buffer `data`.  A matrix decoded by `imread`
  is continuous (`step = cols`, `start = 0`); `m(rowRange, colRange)` makes a
  header over the same buffer.
* `ptr(r)[c]` is raw pointer arithmetic: it addresses `start + r * step + c`
  in the buffer whatever `cols` says.  Leaving the buffer is a fault.
* `forEach` is run sequentially in row-major order; the position handed to
  the functor is relative to the matrix `forEach` is called on.  On an empty
  matrix `forEach` does not return: OpenCV asserts `!empty()` there (and
  divided by the column count, 0, before it had that assertion).
* A range of no rows or no columns yields the empty matrix: the constructor
  behind `operator()` releases the header and sets `rows = cols = 0`.
* `std::size_t` and `uint64_t` arithmetic is taken modulo `2 ^ 64`.  Passing a
  `std::size_t` where OpenCV takes an `int` is a fault when the value does not
  fit, so every successful run of the model is a run of the program.
-/

namespace Stitching

/-- Ways a run stops without a result. -/
inductive Fault where
  /-- A `CV_Assert` of OpenCV fails, in `cv::Mat::operator()` or in
  `cv::Mat::forEach` (uncaught `cv::Exception`). -/
  | assertion
  /-- An access through a raw row pointer leaves the pixel buffer. -/
  | outOfBuffer
  /-- A `std::size_t` value does not fit the `int` parameter it is passed to. -/
  | narrowing
  deriving DecidableEq

deriving instance DecidableEq for Except

/-- One past the largest `int`. -/
def intLimit : Nat := 2147483648

/-- Number of values of `std::size_t` and `uint64_t`. -/
def sizeLimit : Nat := 18446744073709551616

/-- Conversion of a `std::size_t` value to an `int` parameter. -/
def toInt (x : Nat) : Except Fault Nat :=
  if x < intLimit then .ok x else .error .narrowing

/-- Left fold whose step may fault: the body of a `for` loop run over the
listed values of the loop variable. -/
def foldlE {σ α : Type} (f : σ → α → Except Fault σ) : σ → List α → Except Fault σ
  | s, [] => .ok s
  | s, a :: as =>
    match f s a with
    | .ok s' => foldlE f s' as
    | .error e => .error e

/-- Header of a single-channel 8-bit `cv::Mat` over its pixel buffer. -/
structure Mat where
  rows : Nat
  cols : Nat
  /-- Distance, in elements, between the starts of two consecutive rows. -/
  step : Nat
  /-- Index in `data` of element `(0, 0)`. -/
  start : Nat
  data : List Nat
  deriving DecidableEq

namespace Mat

/-- The matrix `cv::imread(..., IMREAD_GRAYSCALE)` yields for a decoded image:
at least one row and column, dimensions that are `int`s, a continuous buffer
of `uint8_t`. -/
def wf (m : Mat) : Prop :=
  1 ≤ m.rows ∧ 1 ≤ m.cols ∧ m.rows < intLimit ∧ m.cols < intLimit ∧
  m.step = m.cols ∧ m.start = 0 ∧ m.data.length = m.rows * m.cols ∧
  ∀ p ∈ m.data, p < 256

instance (m : Mat) : Decidable m.wf := by
  unfold wf; infer_instance

/-- Decoded image with the given rows of pixels, `cols` wide. -/
def ofRows (cols : Nat) (rs : List (List Nat)) : Mat :=
  { rows := rs.length, cols := cols, step := cols, start := 0, data := rs.flatten }

/-- Sub-matrix `m(cv::Range(r0, r1), cv::Range(c0, c1))`: `cv::Mat::operator()`
asserts both ranges lie inside the matrix and makes a header over the same
buffer, or the empty matrix when a range is empty. -/
def sub (m : Mat) (r0 r1 c0 c1 : Nat) : Except Fault Mat :=
  if r0 ≤ r1 ∧ r1 ≤ m.rows ∧ c0 ≤ c1 ∧ c1 ≤ m.cols then
    if r1 - r0 = 0 ∨ c1 - c0 = 0 then
      .ok { rows := 0, cols := 0, step := m.step, start := 0, data := [] }
    else
      .ok { rows := r1 - r0, cols := c1 - c0, step := m.step,
            start := m.start + r0 * m.step + c0, data := m.data }
  else .error .assertion

/-- Row pointer `m.ptr<uint8_t>(r)`: address of the first element of row `r`. -/
def ptr (m : Mat) (r : Nat) : Nat := m.start + r * m.step

/-- Read through a raw pointer. -/
def load (m : Mat) (addr : Nat) : Except Fault Nat :=
  match m.data[addr]? with
  | some v => .ok v
  | none => .error .outOfBuffer

/-- Write through a raw pointer. -/
def store (m : Mat) (addr v : Nat) : Except Fault Mat :=
  if addr < m.data.length then .ok { m with data := m.data.set addr v }
  else .error .outOfBuffer

/-- Matrix `cv::Mat::zeros(rows, cols, CV_8U)`. -/
def zeros (rows cols : Nat) : Mat :=
  { rows := rows, cols := cols, step := cols, start := 0,
    data := List.replicate (rows * cols) 0 }

/-- Call `m.forEach<uint8_t>(op)`: asserts `m` is not empty, then `op` receives
each pixel with its position relative to `m`; the variables `op` captures by
reference are threaded through as an explicit state. -/
def forEach {σ : Type} (m : Mat) (op : σ → Nat → Nat × Nat → Except Fault σ)
    (s : σ) : Except Fault σ :=
  if m.rows = 0 ∨ m.cols = 0 then .error .assertion
  else
    foldlE (fun s r =>
      foldlE (fun s c => do
        let pixel ← m.load (m.ptr r + c)
        op s pixel (r, c)) s (List.range m.cols)) s (List.range m.rows)

/-- Pixel `(r, c)` of a matrix, for positions inside it. -/
def get? (m : Mat) (r c : Nat) : Option Nat :=
  if r < m.rows ∧ c < m.cols then m.data[m.ptr r + c]? else none

end Mat

/-- Source `compareRows`: the functor reads `bot.ptr(pos[0])[pos[1]]` for every
position of `topSection`, which spans columns `offset .. top.cols` of `top`. -/
def compareRows (top bot : Mat) (offset : Nat) : Except Fault Nat := do
  let start ← toInt offset
  let topSection ← top.sub 0 top.rows start top.cols
  topSection.forEach (fun difference pixel pos => do
    let other ← bot.load (bot.ptr pos.1 + pos.2)
    pure ((difference + ((pixel : Int) - (other : Int)).natAbs) % sizeLimit)) 0

/-- Source `combine`; the `output` reference parameter is the result. -/
def combine (top bot : Mat) (topIdx offset : Nat) : Except Fault Mat := do
  let outCols := if top.cols ≥ bot.cols then top.cols else bot.cols
  let outRows ← toInt ((topIdx + bot.rows) % sizeLimit)
  let outColsArg ← toInt outCols
  let output := Mat.zeros outRows outColsArg
  -- Copy from 0 to the first overlapping index from top image
  let rowEnd ← toInt topIdx
  let topPart ← top.sub 0 rowEnd 0 top.cols
  let output ← topPart.forEach (fun output pixel pos =>
    output.store (output.ptr pos.1 + pos.2) pixel) output
  -- Then use bottom for the rest
  let colStart ← toInt offset
  let colEnd ← toInt ((bot.cols + sizeLimit - offset) % sizeLimit)
  let botPart ← bot.sub 0 bot.rows colStart colEnd
  botPart.forEach (fun output pixel pos => do
    let row ← toInt ((pos.1 + topIdx) % sizeLimit)
    output.store (output.ptr row + (pos.2 + offset) % sizeLimit) pixel) output

/-- The three variables the search loop of `main` updates. -/
structure Best where
  offset : Nat
  bestFitTopIdx : Nat
  bestFit : Nat
  deriving DecidableEq

/-- Values of `i` in `for (i = n; i > 0; i--)`. -/
def countDown : Nat → List Nat
  | 0 => []
  | n + 1 => (n + 1) :: countDown n

/-- Source `main`, lines 88 and 94-96: the score computed for candidate `(i, j)`. -/
def tempFit (top bot : Mat) (i j : Nat) : Except Fault Nat := do
  let minColSize := if top.cols ≥ bot.cols then bot.cols else top.cols
  let rowStart ← toInt i
  let rowEnd ← toInt ((i + 1) % sizeLimit)
  let topSection ← top.sub rowStart rowEnd 0 top.cols
  let colEnd ← toInt minColSize
  let botSection ← bot.sub 0 1 0 colEnd
  compareRows topSection botSection j

/-- Source `main`, lines 94-101: body of the inner loop. -/
def searchStep (top bot : Mat) (i : Nat) (s : Best) (j : Nat) : Except Fault Best := do
  let t ← tempFit top bot i j
  if t < s.bestFit then pure { offset := j, bestFitTopIdx := i, bestFit := t }
  else pure s

/-- Source `main`, lines 82-103: the search loop. -/
def searchLoop (top bot : Mat) : Except Fault Best :=
  let minColSize := if top.cols ≥ bot.cols then bot.cols else top.cols
  foldlE (fun s i =>
      foldlE (searchStep top bot i) s (List.range (top.cols - minColSize + 1)))
    { offset := 0, bestFitTopIdx := 0, bestFit := sizeLimit - 1 }
    (countDown (top.rows - 1))

/-- What `main` leaves behind. -/
inductive Outcome where
  /-- An input image failed to load: message on `cerr`, `return 1`. -/
  | failedToOpen
  /-- The composite was handed to `imwrite`: `return 0`. -/
  | wrote (best : Best) (output : Mat)
  deriving DecidableEq

/-- Exit status of `main`. -/
def Outcome.exitCode : Outcome → Nat
  | .failedToOpen => 1
  | .wrote _ _ => 0

/-- Source `main` from the two decoded images on (an image that fails to load
is the empty matrix). -/
def main (top bot : Mat) : Except Fault Outcome :=
  if top.rows < 1 ∨ top.cols < 1 then .ok .failedToOpen
  else if bot.rows < 1 ∨ bot.cols < 1 then .ok .failedToOpen
  else do
    let best ← searchLoop top bot
    let output ← combine top bot best.bestFitTopIdx best.offset
    pure (.wrote best output)

/-- Sum of `|f k - g k|` over `k < n`. -/
def sad (f g : Nat → Nat) : Nat → Nat
  | 0 => 0
  | n + 1 => sad f g n + ((f n : Int) - (g n : Int)).natAbs

/-- Pair `(i, j)` lies in the range the search loop enumerates. -/
def candidate (top bot : Mat) (i j : Nat) : Prop :=
  1 ≤ i ∧ i ≤ top.rows - 1 ∧ j ≤ top.cols - min top.cols bot.cols

/-- Scan order of the search loop: `(i, j)` is visited before `(i', j')`. -/
def earlier (i j i' j' : Nat) : Prop := i' < i ∨ (i = i' ∧ j < j')

/-- Loop invariant of the search once every candidate visited before `(I, J)`
has been scored: the best fit bounds all their scores from below, and it is
either still the initial value or the score of a visited candidate that no
earlier candidate matches. -/
def SearchInv (top bot : Mat) (I J : Nat) (s : Best) : Prop :=
  (∀ i j, candidate top bot i j → earlier i j I J →
      ∃ t, tempFit top bot i j = Except.ok t ∧ s.bestFit ≤ t) ∧
  (s = { offset := 0, bestFitTopIdx := 0, bestFit := sizeLimit - 1 } ∨
    (candidate top bot s.bestFitTopIdx s.offset ∧ earlier s.bestFitTopIdx s.offset I J ∧
      tempFit top bot s.bestFitTopIdx s.offset = Except.ok s.bestFit ∧
      ∀ i j, candidate top bot i j → earlier i j s.bestFitTopIdx s.offset →
        ∃ t, tempFit top bot i j = Except.ok t ∧ s.bestFit < t))

/-- First image of the running example: 3 rows, 3 columns. -/
def exTop : Mat := Mat.ofRows 3 [[9, 9, 9], [1, 4, 6], [7, 4, 6]]

/-- Second image of the running example: 2 rows, 2 columns. -/
def exBot : Mat := Mat.ofRows 2 [[4, 6], [2, 0]]

/-- A second image of one row, two columns. -/
def narrowBot : Mat := Mat.ofRows 2 [[4, 6]]

/-- First image of the shifted example: 2 rows, 4 columns. -/
def shiftTop : Mat := Mat.ofRows 4 [[0, 0, 0, 0], [9, 5, 6, 7]]

/-- Second image of the shifted example: 2 rows, 3 columns; its row 0 matches
columns 1 to 3 of row 1 of `shiftTop`. -/
def shiftBot : Mat := Mat.ofRows 3 [[5, 6, 7], [8, 8, 8]]

/-- Score as the specification words it: the sum of absolute differences of
`min first.cols second.cols` pairs, `first(cutIndex, offset + k)` against
`second(0, k)`. -/
def specScore (first second : Mat) (cutIndex offset : Nat) : Nat :=
  sad (fun k => (first.get? cutIndex (offset + k)).getD 0)
    (fun k => (second.get? 0 k).getD 0) (min first.cols second.cols)

/-- The 3 by 3 image of zeros. -/
def black3 : Mat := Mat.ofRows 3 [[0, 0, 0], [0, 0, 0], [0, 0, 0]]

/-- The 3 by 3 image of 255s. -/
def white3 : Mat := Mat.ofRows 3 [[255, 255, 255], [255, 255, 255], [255, 255, 255]]

/-- Loop invariant of a `forEach` that stores pixel `(r', c')` of `src` at
address `(r' + dr) * W + (c' + dc)` of the output, once every position before
`(r, c)` has been handled: `o` has the header of the initial output `out`, holds
the pixel of `src` at the handled targets and the contents of `out` elsewhere. -/
def Copied (src out : Mat) (W dr dc r c : Nat) (o : Mat) : Prop :=
  o.rows = out.rows ∧ o.cols = out.cols ∧ o.step = W ∧ o.start = 0 ∧
  o.data.length = out.data.length ∧
  ∀ R C, C < W → o.data[R * W + C]? =
    if dr ≤ R ∧ dc ≤ C ∧ C < dc + src.cols ∧ (R < dr + r ∨ (R = dr + r ∧ C < dc + c))
    then src.data[src.ptr (R - dr) + (C - dc)]? else out.data[R * W + C]?

/-- A one-row matrix header whose `cols` elements lie inside its buffer of
`uint8_t`: a row slice `B(cv::Range(r, r + 1), cv::Range(0, B.cols))` of a
decoded image, or a decoded image of one row. -/
def Mat.isRow (m : Mat) : Prop :=
  m.rows = 1 ∧ 1 ≤ m.cols ∧ m.cols < intLimit ∧ m.start + m.cols ≤ m.data.length ∧
  ∀ p ∈ m.data, p < 256

instance (m : Mat) : Decidable m.isRow := by
  unfold Mat.isRow; infer_instance

/-- First image of the far-offset example: 2 rows, 4 columns; columns 2 and 3
of its row 1 match row 0 of `exBot`. -/
def farTop : Mat := Mat.ofRows 4 [[0, 0, 0, 0], [9, 9, 4, 6]]

/-- The 4 by 3 image of 10s. -/
def tens4x3 : Mat := Mat.ofRows 3 [[10, 10, 10], [10, 10, 10], [10, 10, 10], [10, 10, 10]]

/-- The 2 by 3 image of 10s. -/
def tens2x3 : Mat := Mat.ofRows 3 [[10, 10, 10], [10, 10, 10]]

/-- Row 1 of `exBot`, as `exBot(cv::Range(1, 2), cv::Range(0, 2))`. -/
def exBotRow1 : Mat := { rows := 1, cols := 2, step := 2, start := 2, data := [4, 6, 2, 0] }

/-- The matrix `imread` returns for an image it cannot decode. -/
def noImage : Mat := { rows := 0, cols := 0, step := 0, start := 0, data := [] }

/-! ## Faults and loops -/

@[simp] theorem ok_bind {α β : Type} (a : α) (f : α → Except Fault β) :
    (Except.ok a >>= f) = f a := rfl

@[simp] theorem error_bind {α β : Type} (e : Fault) (f : α → Except Fault β) :
    ((Except.error e : Except Fault α) >>= f) = Except.error e := rfl

@[simp] theorem pure_eq_ok {α : Type} (a : α) : (pure a : Except Fault α) = Except.ok a := rfl

@[simp] theorem bind_ok_right {α : Type} (x : Except Fault α) :
    (x >>= fun a => Except.ok a) = x := by
  cases x <;> rfl

theorem bind_eq_ok {α β : Type} (x : Except Fault α) (f : α → Except Fault β) (b : β) :
    (x >>= f) = Except.ok b ↔ ∃ a, x = Except.ok a ∧ f a = Except.ok b := by
  cases x with
  | error e => simp
  | ok a => simp

theorem foldlE_nil {σ α : Type} (f : σ → α → Except Fault σ) (s : σ) :
    foldlE f s [] = Except.ok s := rfl

theorem foldlE_cons {σ α : Type} (f : σ → α → Except Fault σ) (s : σ) (a : α) (l : List α) :
    foldlE f s (a :: l) = (f s a >>= fun s' => foldlE f s' l) := by
  cases h : f s a <;> simp [foldlE, h]

theorem foldlE_append {σ α : Type} (f : σ → α → Except Fault σ) (s : σ) (l₁ l₂ : List α) :
    foldlE f s (l₁ ++ l₂) = (foldlE f s l₁ >>= fun s' => foldlE f s' l₂) := by
  induction l₁ generalizing s with
  | nil => simp [foldlE_nil]
  | cons a l ih =>
    rw [List.cons_append, foldlE_cons, foldlE_cons]
    cases h : f s a with
    | error e => simp
    | ok s' => simp [ih]

theorem foldlE_range_succ {σ : Type} (f : σ → Nat → Except Fault σ) (s : σ) (n : Nat) :
    foldlE f s (List.range (n + 1)) = (foldlE f s (List.range n) >>= fun s' => f s' n) := by
  rw [List.range_succ, foldlE_append]
  congr 1
  funext s'
  rw [foldlE_cons]
  cases f s' n <;> simp [foldlE_nil]

/-- Invariant rule for `for (k = 0; k < n; k++)` when the run is known to finish. -/
theorem foldlE_range_inv {σ : Type} (Q : Nat → σ → Prop) (f : σ → Nat → Except Fault σ)
    (n : Nat) (s s' : σ) (h0 : Q 0 s)
    (hstep : ∀ k t t', k < n → Q k t → f t k = Except.ok t' → Q (k + 1) t')
    (h : foldlE f s (List.range n) = Except.ok s') : Q n s' := by
  induction n generalizing s' with
  | zero =>
    simp [foldlE_nil] at h
    exact h ▸ h0
  | succ n ih =>
    rw [foldlE_range_succ, bind_eq_ok] at h
    obtain ⟨t, ht, hf⟩ := h
    exact hstep n t s' (Nat.lt_succ_self n)
      (ih t (fun k u u' hk => hstep k u u' (Nat.lt_succ_of_lt hk)) ht) hf

/-- Invariant rule for `for (k = 0; k < n; k++)` that also shows the run finishes. -/
theorem foldlE_range_total {σ : Type} (Q : Nat → σ → Prop) (f : σ → Nat → Except Fault σ)
    (n : Nat) (s : σ) (h0 : Q 0 s)
    (hstep : ∀ k t, k < n → Q k t → ∃ t', f t k = Except.ok t' ∧ Q (k + 1) t') :
    ∃ s', foldlE f s (List.range n) = Except.ok s' ∧ Q n s' := by
  induction n with
  | zero => exact ⟨s, rfl, h0⟩
  | succ n ih =>
    obtain ⟨t, ht, hQ⟩ := ih (fun k u hk => hstep k u (Nat.lt_succ_of_lt hk))
    obtain ⟨t', hf, hQ'⟩ := hstep n t (Nat.lt_succ_self n) hQ
    exact ⟨t', by rw [foldlE_range_succ, ht]; simpa using hf, hQ'⟩

/-- A loop whose state after `k` rounds is `g k`. -/
theorem foldlE_range_eq {σ : Type} (f : σ → Nat → Except Fault σ) (g : Nat → σ) (n : Nat)
    (hstep : ∀ k, k < n → f (g k) k = Except.ok (g (k + 1))) :
    foldlE f (g 0) (List.range n) = Except.ok (g n) := by
  obtain ⟨s', hs', hQ⟩ := foldlE_range_total (fun k d => d = g k) f n (g 0) rfl
    (fun k t hk ht => ⟨g (k + 1), by rw [ht]; exact hstep k hk, rfl⟩)
  rw [hs', hQ]

/-- Invariant rule for `for (i = n; i > 0; i--)` when the run is known to finish. -/
theorem foldlE_countDown_inv {σ : Type} (Q : Nat → σ → Prop) (f : σ → Nat → Except Fault σ)
    (n : Nat) (s s' : σ) (h0 : Q n s)
    (hstep : ∀ i t t', 1 ≤ i → i ≤ n → Q i t → f t i = Except.ok t' → Q (i - 1) t')
    (h : foldlE f s (countDown n) = Except.ok s') : Q 0 s' := by
  induction n generalizing s with
  | zero =>
    simp [countDown, foldlE_nil] at h
    exact h ▸ h0
  | succ n ih =>
    rw [countDown, foldlE_cons, bind_eq_ok] at h
    obtain ⟨t, hf, ht⟩ := h
    exact ih t (hstep (n + 1) s t (by omega) (Nat.le_refl _) h0 hf)
      (fun i u u' h1 hi => hstep i u u' h1 (Nat.le_succ_of_le hi)) ht

/-- Invariant rule for `for (i = n; i > 0; i--)` that also shows the run finishes. -/
theorem foldlE_countDown_total {σ : Type} (Q : Nat → σ → Prop) (f : σ → Nat → Except Fault σ)
    (n : Nat) (s : σ) (h0 : Q n s)
    (hstep : ∀ i t, 1 ≤ i → i ≤ n → Q i t → ∃ t', f t i = Except.ok t' ∧ Q (i - 1) t') :
    ∃ s', foldlE f s (countDown n) = Except.ok s' ∧ Q 0 s' := by
  induction n generalizing s with
  | zero => exact ⟨s, rfl, h0⟩
  | succ n ih =>
    obtain ⟨t, hf, hQ⟩ := hstep (n + 1) s (by omega) (Nat.le_refl _) h0
    obtain ⟨s', hs', hQ'⟩ := ih t hQ (fun i u h1 hi => hstep i u h1 (Nat.le_succ_of_le hi))
    exact ⟨s', by rw [countDown, foldlE_cons, hf]; simpa using hs', hQ'⟩


/-! ## The scorer -/

theorem toInt_of_lt (x : Nat) (h : x < intLimit) : toInt x = Except.ok x := by
  simp [toInt, h]

theorem toInt_eq_ok (x y : Nat) (h : toInt x = Except.ok y) : y = x ∧ x < intLimit := by
  unfold toInt at h
  split at h
  · injection h with h; exact ⟨h.symm, by assumption⟩
  · cases h

theorem load_eq_ok_iff (m : Mat) (a v : Nat) : m.load a = Except.ok v ↔ m.data[a]? = some v := by
  unfold Mat.load
  cases h : m.data[a]? <;> simp

theorem load_mem (m : Mat) (a v : Nat) (h : m.load a = Except.ok v) : v ∈ m.data := by
  rw [load_eq_ok_iff] at h
  exact List.mem_iff_getElem?.mpr ⟨a, h⟩

theorem load_of_lt (m : Mat) (a : Nat) (h : a < m.data.length) :
    m.load a = Except.ok (m.data.getD a 0) := by
  rw [load_eq_ok_iff]
  simp [List.getD, List.getElem?_eq_getElem h]

theorem load_lt (m : Mat) (a v : Nat) (h : m.load a = Except.ok v) : a < m.data.length := by
  rw [load_eq_ok_iff] at h
  exact (List.getElem?_eq_some.mp h).1

theorem sub_ok (m : Mat) (r0 r1 c0 c1 : Nat)
    (h : r0 < r1 ∧ r1 ≤ m.rows ∧ c0 < c1 ∧ c1 ≤ m.cols) :
    m.sub r0 r1 c0 c1 =
      Except.ok
        { rows := r1 - r0, cols := c1 - c0, step := m.step,
          start := m.start + r0 * m.step + c0, data := m.data } := by
  unfold Mat.sub
  rw [if_pos (by omega), if_neg (by omega)]

/-- Under the guards of `main` the score of candidate `(i, j)` is one loop over
`k < top.cols - j` reading element `j + k` of row `i` of `top` and element `k`
of the buffer of `bot`. -/
theorem tempFit_eq_fold (top bot : Mat) (ht : top.wf) (hb : bot.wf) (i j : Nat)
    (hi : i < top.rows) (hj : j < top.cols) :
    tempFit top bot i j =
      foldlE (fun d k =>
        top.load (i * top.cols + j + k) >>= fun pixel =>
        bot.load k >>= fun other =>
        Except.ok ((d + ((pixel : Int) - (other : Int)).natAbs) % sizeLimit)) 0
        (List.range (top.cols - j)) := by
  obtain ⟨t1, t2, t3, t4, t5, t6, t7, t8⟩ := ht
  obtain ⟨b1, b2, b3, b4, b5, b6, b7, b8⟩ := hb
  have hi1 : (i + 1) % sizeLimit = i + 1 := by
    unfold intLimit at t3; unfold sizeLimit; omega
  have hmin : (if top.cols ≥ bot.cols then bot.cols else top.cols) < intLimit := by
    split <;> assumption
  have hmin2 : (if top.cols ≥ bot.cols then bot.cols else top.cols) ≤ bot.cols := by
    split <;> omega
  have hmin3 : 0 < (if top.cols ≥ bot.cols then bot.cols else top.cols) := by
    split <;> omega
  unfold tempFit compareRows Mat.forEach
  simp only []
  rw [toInt_of_lt i (by omega), hi1, toInt_of_lt (i + 1) (by omega), toInt_of_lt _ hmin,
    toInt_of_lt j (by omega)]
  simp only [ok_bind]
  rw [sub_ok top i (i + 1) 0 top.cols (by omega),
    sub_ok bot 0 1 0 (if top.cols ≥ bot.cols then bot.cols else top.cols) (by omega)]
  simp only [ok_bind]
  have e1 : i + 1 - i = 1 := by omega
  rw [e1, sub_ok _ 0 1 j (top.cols - 0) (by simp only []; omega)]
  simp only [ok_bind]
  rw [if_neg (by omega)]
  rw [show List.range (1 - 0) = [0] from rfl, foldlE_cons]
  simp only [foldlE_nil, bind_ok_right]
  simp only [Mat.load, Mat.ptr, t5, t6, b6, Nat.zero_mul, Nat.zero_add, Nat.add_zero,
    Nat.sub_zero, pure_eq_ok]

theorem index_lt (i r c w : Nat) (hi : i < r) (hc : c < w) : i * w + c < r * w := by
  have h : (i + 1) * w ≤ r * w := Nat.mul_le_mul_right w hi
  rw [Nat.add_mul, Nat.one_mul] at h
  omega

theorem getD_lt (l : List Nat) (hl : ∀ p ∈ l, p < 256) (a : Nat) : l.getD a 0 < 256 := by
  by_cases h : a < l.length
  · have : l.getD a 0 = l[a] := by simp [List.getD, List.getElem?_eq_getElem h]
    rw [this]
    exact hl _ (List.getElem_mem h)
  · have : l.getD a 0 = 0 := by
      simp [List.getD, List.getElem?_eq_none (Nat.le_of_not_lt h)]
    omega

theorem sad_le (f g : Nat → Nat) (n : Nat) (hf : ∀ k, k < n → f k < 256)
    (hg : ∀ k, k < n → g k < 256) : sad f g n ≤ 255 * n := by
  induction n with
  | zero => simp [sad]
  | succ n ih =>
    have h1 := ih (fun k hk => hf k (Nat.lt_succ_of_lt hk)) (fun k hk => hg k (Nat.lt_succ_of_lt hk))
    have h2 := hf n (Nat.lt_succ_self n)
    have h3 := hg n (Nat.lt_succ_self n)
    simp only [sad]
    omega

/-- No fault on the way: the score is at most 255 per compared element. -/
theorem tempFit_le (top bot : Mat) (ht : top.wf) (hb : bot.wf) (i j t : Nat)
    (hi : i < top.rows) (hj : j < top.cols) (h : tempFit top bot i j = Except.ok t) :
    t ≤ 255 * (top.cols - j) := by
  rw [tempFit_eq_fold top bot ht hb i j hi hj] at h
  refine foldlE_range_inv (fun k d => d ≤ 255 * k) _ _ 0 t (Nat.le_refl _) ?_ h
  intro k d d' _ hd hstep
  simp only [bind_eq_ok] at hstep
  obtain ⟨pixel, hp, other, ho, hd'⟩ := hstep
  have h1 := ht.2.2.2.2.2.2.2 pixel (load_mem _ _ _ hp)
  have h2 := hb.2.2.2.2.2.2.2 other (load_mem _ _ _ ho)
  injection hd' with hd'
  subst hd'
  have := Nat.mod_le (d + (↑pixel - ↑other : Int).natAbs) sizeLimit
  omega

/-- When the reads stay inside the buffer of `bot`, the score of candidate
`(i, j)` is the sum of absolute differences of `top.cols - j` pairs. -/
theorem tempFit_eq_sad (top bot : Mat) (ht : top.wf) (hb : bot.wf) (i j : Nat)
    (hi : i < top.rows) (hj : j < top.cols) (hfit : top.cols - j ≤ bot.data.length) :
    tempFit top bot i j =
      Except.ok (sad (fun k => top.data.getD (i * top.cols + j + k) 0)
        (fun k => bot.data.getD k 0) (top.cols - j)) := by
  rw [tempFit_eq_fold top bot ht hb i j hi hj]
  refine foldlE_range_eq _ (fun k => sad (fun k => top.data.getD (i * top.cols + j + k) 0)
        (fun k => bot.data.getD k 0) k) (top.cols - j) ?_
  · intro k hk
    have hlt : i * top.cols + j + k < top.data.length := by
      rw [ht.2.2.2.2.2.2.1, Nat.add_assoc]
      exact index_lt i top.rows (j + k) top.cols hi (by omega)
    rw [load_of_lt top _ hlt, load_of_lt bot k (by omega)]
    simp only [ok_bind]
    have hb1 := sad_le (fun k => top.data.getD (i * top.cols + j + k) 0)
      (fun k => bot.data.getD k 0) k (fun _ _ => getD_lt _ ht.2.2.2.2.2.2.2 _)
      (fun _ _ => getD_lt _ hb.2.2.2.2.2.2.2 _)
    have h1 := getD_lt _ ht.2.2.2.2.2.2.2 (i * top.cols + j + k)
    have h2 := getD_lt _ hb.2.2.2.2.2.2.2 k
    have h4 := ht.2.2.2.1
    simp only [sad]
    congr 1
    apply Nat.mod_eq_of_lt
    unfold intLimit at h4
    unfold sizeLimit
    omega

/-! ## The search loop -/

theorem minColSize_eq (top bot : Mat) :
    (if top.cols ≥ bot.cols then bot.cols else top.cols) = min top.cols bot.cols := by
  split <;> omega

theorem searchStep_eq_ok (top bot : Mat) (i j : Nat) (s s' : Best)
    (h : searchStep top bot i s j = Except.ok s') :
    ∃ t, tempFit top bot i j = Except.ok t ∧
      s' = if t < s.bestFit then { offset := j, bestFitTopIdx := i, bestFit := t } else s := by
  unfold searchStep at h
  rw [bind_eq_ok] at h
  obtain ⟨t, ht, h⟩ := h
  refine ⟨t, ht, ?_⟩
  split at h <;> rename_i hlt
  · rw [if_pos hlt]; injection h with h; exact h.symm
  · rw [if_neg hlt]; injection h with h; exact h.symm

/-- One round of the inner loop keeps the invariant and moves the cursor. -/
theorem searchStep_inv (top bot : Mat) (i j : Nat) (s s' : Best)
    (hc : candidate top bot i j) (hinv : SearchInv top bot i j s)
    (h : searchStep top bot i s j = Except.ok s') : SearchInv top bot i (j + 1) s' := by
  obtain ⟨t, ht, hs'⟩ := searchStep_eq_ok top bot i j s s' h
  obtain ⟨hall, hbest⟩ := hinv
  have hsucc : ∀ a b, earlier a b i (j + 1) → earlier a b i j ∨ (a = i ∧ b = j) := by
    intro a b hab
    unfold earlier at hab ⊢
    omega
  by_cases hlt : t < s.bestFit
  · rw [if_pos hlt] at hs'
    subst hs'
    refine ⟨?_, Or.inr ⟨hc, ?_, ht, ?_⟩⟩
    · intro a b hab he
      rcases hsucc a b he with he | ⟨rfl, rfl⟩
      · obtain ⟨u, hu, hle⟩ := hall a b hab he
        exact ⟨u, hu, by simp only; omega⟩
      · exact ⟨t, ht, Nat.le_refl _⟩
    · unfold earlier; simp
    · intro a b hab he
      obtain ⟨u, hu, hle⟩ := hall a b hab he
      exact ⟨u, hu, by simp only; omega⟩
  · rw [if_neg hlt] at hs'
    subst hs'
    refine ⟨?_, ?_⟩
    · intro a b hab he
      rcases hsucc a b he with he | ⟨rfl, rfl⟩
      · exact hall a b hab he
      · exact ⟨t, ht, Nat.le_of_not_lt hlt⟩
    · rcases hbest with h0 | ⟨h1, h2, h3, h4⟩
      · exact Or.inl h0
      · refine Or.inr ⟨h1, ?_, h3, h4⟩
        unfold earlier at h2 ⊢
        omega

/-- A finished search has visited every candidate and satisfies the invariant. -/
theorem searchLoop_inv (top bot : Mat) (best : Best)
    (h : searchLoop top bot = Except.ok best) : SearchInv top bot 0 0 best := by
  unfold searchLoop at h
  simp only [minColSize_eq] at h
  refine foldlE_countDown_inv (fun i s => SearchInv top bot i 0 s) _ (top.rows - 1) _ best
    ?_ ?_ h
  · refine ⟨?_, Or.inl rfl⟩
    intro i j hc he
    unfold candidate at hc
    unfold earlier at he
    omega
  · intro i s s' h1 hi hinv hrow
    have hend : SearchInv top bot i (top.cols - min top.cols bot.cols + 1) s' :=
      foldlE_range_inv (fun j s => SearchInv top bot i j s) _ _ s s' hinv
        (fun j u u' hj hu hstep =>
          searchStep_inv top bot i j u u' ⟨h1, hi, by omega⟩ hu hstep) hrow
    obtain ⟨hall, hbest⟩ := hend
    refine ⟨?_, ?_⟩
    · intro a b hab he
      refine hall a b hab ?_
      unfold candidate at hab
      unfold earlier at he ⊢
      omega
    · rcases hbest with h0 | ⟨c1, c2, c3, c4⟩
      · exact Or.inl h0
      · refine Or.inr ⟨c1, ?_, c3, c4⟩
        unfold candidate at c1
        unfold earlier at c2 ⊢
        omega

/-- The search finishes whenever every read of the scorer stays inside the
buffer of `bot`. -/
theorem searchLoop_total (top bot : Mat) (ht : top.wf) (hb : bot.wf)
    (hfit : top.cols ≤ bot.rows * bot.cols) : ∃ best, searchLoop top bot = Except.ok best := by
  unfold searchLoop
  simp only [minColSize_eq]
  have hstep : ∀ i j (u : Best), 1 ≤ i → i ≤ top.rows - 1 →
      j < top.cols - min top.cols bot.cols + 1 →
      ∃ u', searchStep top bot i u j = Except.ok u' ∧ True := by
    intro i j u h1 hi hj
    have hlen := hb.2.2.2.2.2.2.1
    have hbc := hb.2.1
    have htc := ht.2.1
    unfold searchStep
    rw [tempFit_eq_sad top bot ht hb i j (by omega) (by omega) (by omega)]
    simp only [ok_bind]
    split <;> exact ⟨_, rfl, trivial⟩
  have hrow : ∀ i (s : Best), 1 ≤ i → i ≤ top.rows - 1 → True →
      ∃ s', foldlE (searchStep top bot i) s
        (List.range (top.cols - min top.cols bot.cols + 1)) = Except.ok s' ∧ True :=
    fun i s h1 hi _ => foldlE_range_total (fun _ _ => True) (searchStep top bot i) _ s trivial
      (fun j u hj _ => hstep i j u h1 hi hj)
  obtain ⟨s', hs', _⟩ := foldlE_countDown_total (fun _ _ => True)
    (fun s i => foldlE (searchStep top bot i) s
      (List.range (top.cols - min top.cols bot.cols + 1))) (top.rows - 1)
    { offset := 0, bestFitTopIdx := 0, bestFit := sizeLimit - 1 } trivial hrow
  exact ⟨s', hs'⟩

/-- With at least two rows in `top`, a finished search has replaced the
initial best fit. -/
theorem searchLoop_found (top bot : Mat) (ht : top.wf) (hb : bot.wf) (h2 : 2 ≤ top.rows)
    (best : Best) (h : searchLoop top bot = Except.ok best) :
    best ≠ { offset := 0, bestFitTopIdx := 0, bestFit := sizeLimit - 1 } := by
  obtain ⟨hall, _⟩ := searchLoop_inv top bot best h
  obtain ⟨t, htf, hle⟩ := hall (top.rows - 1) 0 ⟨by omega, Nat.le_refl _, Nat.zero_le _⟩
    (by unfold earlier; omega)
  have hbound := tempFit_le top bot ht hb (top.rows - 1) 0 t (by omega) ht.2.1 htf
  have h4 := ht.2.2.2.1
  intro hbest
  rw [hbest] at hle
  unfold intLimit at h4
  unfold sizeLimit at hle
  simp only at hle
  omega

/-! ## Claims about the search -/

/-- C1: for decoded images `top` (at least two rows) and `bot`, the search
finishes whenever the scorer's reads stay inside the buffer of `bot`, and a
finished search holds a candidate of the search range whose recorded score is
the score computed for it and is at most the score computed for every
candidate `(i, j)` with `1 ≤ i ≤ top.rows - 1`, `j ≤ top.cols - minWidth`. -/
theorem search_selects_global_minimum (top bot : Mat) (ht : top.wf) (hb : bot.wf)
    (h2 : 2 ≤ top.rows) :
    (top.cols ≤ bot.rows * bot.cols → ∃ best, searchLoop top bot = Except.ok best) ∧
    ∀ best, searchLoop top bot = Except.ok best →
      (1 ≤ best.bestFitTopIdx ∧ best.bestFitTopIdx ≤ top.rows - 1 ∧
        best.offset ≤ top.cols - min top.cols bot.cols) ∧
      tempFit top bot best.bestFitTopIdx best.offset = Except.ok best.bestFit ∧
      ∀ i j, 1 ≤ i → i ≤ top.rows - 1 → j ≤ top.cols - min top.cols bot.cols →
        ∃ t, tempFit top bot i j = Except.ok t ∧ best.bestFit ≤ t := by
  refine ⟨searchLoop_total top bot ht hb, ?_⟩
  intro best h
  obtain ⟨hall, hbest⟩ := searchLoop_inv top bot best h
  rcases hbest with h0 | ⟨c1, _, c3, _⟩
  · exact absurd h0 (searchLoop_found top bot ht hb h2 best h)
  · refine ⟨c1, c3, ?_⟩
    intro i j h1 hi hj
    refine hall i j ⟨h1, hi, hj⟩ ?_
    unfold earlier
    omega

/-- Instance of C1 on the running example (3 by 3 against 2 by 2). -/
theorem search_selects_global_minimum_witness :
    exTop.wf ∧ exBot.wf ∧ 2 ≤ exTop.rows ∧
    ((exTop.cols ≤ exBot.rows * exBot.cols → ∃ best, searchLoop exTop exBot = Except.ok best) ∧
    ∀ best, searchLoop exTop exBot = Except.ok best →
      (1 ≤ best.bestFitTopIdx ∧ best.bestFitTopIdx ≤ exTop.rows - 1 ∧
        best.offset ≤ exTop.cols - min exTop.cols exBot.cols) ∧
      tempFit exTop exBot best.bestFitTopIdx best.offset = Except.ok best.bestFit ∧
      ∀ i j, 1 ≤ i → i ≤ exTop.rows - 1 → j ≤ exTop.cols - min exTop.cols exBot.cols →
        ∃ t, tempFit exTop exBot i j = Except.ok t ∧ best.bestFit ≤ t) :=
  ⟨by decide, by decide, by decide,
    search_selects_global_minimum exTop exBot (by decide) (by decide) (by decide)⟩

/-- C2 at candidate `(2, 0)` of the running example, where `minWidth = 2`: the
scorer adds three differences, `|7-4| + |4-6| + |6-2| = 9`, the third pairing
column 2 of the first row with the element after row 0 of the second buffer;
the sum over the `minWidth` pairs is `|7-4| + |4-6| = 5`. -/
theorem score_adds_pairs_past_minWidth :
    exTop.wf ∧ exBot.wf ∧ min exTop.cols exBot.cols = 2 ∧
    tempFit exTop exBot 2 0 = Except.ok 9 ∧ specScore exTop exBot 2 0 = 5 := by
  decide

/-- C3: in a finished search every candidate visited before the returned one
(a larger cut index, or the same cut index and a smaller offset) has a score
strictly greater than the returned score.  For the 3 by 3 image of zeros
against the 3 by 3 image of 255s every candidate scores 765 and the search
returns cut index 2, offset 0. -/
theorem search_keeps_first_minimum (top bot : Mat) (ht : top.wf) (hb : bot.wf)
    (best : Best) (h : searchLoop top bot = Except.ok best) :
    (∀ i j, 1 ≤ i → i ≤ top.rows - 1 → j ≤ top.cols - min top.cols bot.cols →
      (best.bestFitTopIdx < i ∨ (i = best.bestFitTopIdx ∧ j < best.offset)) →
      ∃ t, tempFit top bot i j = Except.ok t ∧ best.bestFit < t) ∧
    (∀ i j, 1 ≤ i → i ≤ black3.rows - 1 → j ≤ black3.cols - min black3.cols white3.cols →
      tempFit black3 white3 i j = Except.ok 765) ∧
    searchLoop black3 white3 =
      Except.ok { offset := 0, bestFitTopIdx := 2, bestFit := 765 } := by
  refine ⟨?_, ?_, by decide⟩
  · obtain ⟨hall, hbest⟩ := searchLoop_inv top bot best h
    intro i j h1 hi hj he
    rcases hbest with h0 | ⟨_, _, _, c4⟩
    · obtain ⟨t, htf, hle⟩ := hall i j ⟨h1, hi, hj⟩ (by unfold earlier; omega)
      have hbc := hb.2.1
      have htc := ht.2.1
      have hbound := tempFit_le top bot ht hb i j t (by omega) (by omega) htf
      have h4 := ht.2.2.2.1
      rw [h0] at hle
      unfold intLimit at h4
      unfold sizeLimit at hle
      simp only at hle
      omega
    · exact c4 i j ⟨h1, hi, hj⟩ he
  · intro i j h1 hi hj
    have hr : black3.rows - 1 = 2 := by decide
    have hc : black3.cols - min black3.cols white3.cols = 0 := by decide
    rw [hr] at hi
    rw [hc] at hj
    have hj0 : j = 0 := by omega
    have hi12 : i = 1 ∨ i = 2 := by omega
    subst hj0
    rcases hi12 with rfl | rfl <;> decide

/-- Instance of C3 on the running example, where candidates `(2, 1)` and
`(1, 1)` both score 0 and `(2, 1)` is visited first. -/
theorem search_keeps_first_minimum_witness :
    exTop.wf ∧ exBot.wf ∧
    searchLoop exTop exBot = Except.ok { offset := 1, bestFitTopIdx := 2, bestFit := 0 } ∧
    tempFit exTop exBot 1 1 = Except.ok 0 ∧
    ∃ t, tempFit exTop exBot 2 0 = Except.ok t ∧ 0 < t :=
  ⟨by decide, by decide, by decide, by decide,
    (search_keeps_first_minimum exTop exBot (by decide) (by decide)
      { offset := 1, bestFitTopIdx := 2, bestFit := 0 } (by decide)).1 2 0
      (by decide) (by decide) (by decide) (Or.inr ⟨rfl, by decide⟩)⟩

/-- C10 on a 3 by 3 first image and a 1 by 2 second image: at candidate
`(2, 0)` the scorer reads index 2 of a row slice of length `minWidth = 2`,
one element past the whole buffer of the second image. -/
theorem scorer_reads_past_second_buffer :
    exTop.wf ∧ narrowBot.wf ∧ min exTop.cols narrowBot.cols = 2 ∧
    narrowBot.data.length = 2 ∧
    tempFit exTop narrowBot 2 0 = Except.error Fault.outOfBuffer ∧
    main exTop narrowBot = Except.error Fault.outOfBuffer := by
  decide

/-! ## Copying with `forEach` -/

theorem index_inj (W R C R' C' : Nat) (hC : C < W) (hC' : C' < W)
    (h : R * W + C = R' * W + C') : R = R' ∧ C = C' := by
  have hR : R = R' := by
    rcases Nat.lt_trichotomy R R' with hlt | heq | hgt
    · have := index_lt R R' C W hlt hC
      omega
    · exact heq
    · have := index_lt R' R C' W hgt hC'
      omega
  subst hR
  exact ⟨rfl, by omega⟩

theorem store_of_lt (m : Mat) (a v : Nat) (h : a < m.data.length) :
    m.store a v = Except.ok { m with data := m.data.set a v } := by
  simp [Mat.store, h]

theorem copied_init (src out : Mat) (W dr dc : Nat) (hstep : out.step = W)
    (hstart : out.start = 0) : Copied src out W dr dc 0 0 out := by
  refine ⟨rfl, rfl, hstep, hstart, rfl, ?_⟩
  intro R C _
  rw [if_neg]
  omega

theorem copied_row_end (src out : Mat) (W dr dc r : Nat) (o : Mat)
    (h : Copied src out W dr dc r src.cols o) : Copied src out W dr dc (r + 1) 0 o := by
  obtain ⟨h1, h2, h3, h4, h5, h6⟩ := h
  refine ⟨h1, h2, h3, h4, h5, ?_⟩
  intro R C hC
  rw [h6 R C hC]
  apply if_congr _ rfl rfl
  omega

/-- One round of the copying loop. -/
theorem copied_step (src out : Mat) (W dr dc r c : Nat)
    (op : Mat → Nat → Nat × Nat → Except Fault Mat)
    (hop : ∀ (o : Mat) (pixel r c : Nat), r < src.rows → c < src.cols → o.step = W →
      o.start = 0 → op o pixel (r, c) = o.store ((r + dr) * W + (c + dc)) pixel)
    (hsrc : ∀ r c, r < src.rows → c < src.cols → src.ptr r + c < src.data.length)
    (hcols : src.cols + dc ≤ W) (hrows : (src.rows + dr) * W ≤ out.data.length)
    (hr : r < src.rows) (hc : c < src.cols) (o : Mat)
    (h : Copied src out W dr dc r c o) :
    ∃ o', (src.load (src.ptr r + c) >>= fun pixel => op o pixel (r, c)) = Except.ok o' ∧
      Copied src out W dr dc r (c + 1) o' := by
  obtain ⟨h1, h2, h3, h4, h5, h6⟩ := h
  have hin := hsrc r c hr hc
  have hv : src.data[src.ptr r + c]? = some (src.data.getD (src.ptr r + c) 0) := by
    simp [List.getD, List.getElem?_eq_getElem hin]
  have htgt : (r + dr) * W + (c + dc) < o.data.length := by
    have := index_lt (r + dr) (src.rows + dr) (c + dc) W (by omega) (by omega)
    omega
  rw [load_of_lt src _ hin]
  simp only [ok_bind]
  rw [hop o _ r c hr hc h3 h4, store_of_lt o _ _ htgt]
  refine ⟨_, rfl, h1, h2, h3, h4, by simp [h5], ?_⟩
  intro R C hC
  simp only [List.getElem?_set, if_pos htgt]
  by_cases heq : (r + dr) * W + (c + dc) = R * W + C
  · obtain ⟨hR, hCc⟩ := index_inj W (r + dr) (c + dc) R C (by omega) hC heq
    rw [if_pos heq, if_pos (by omega)]
    have e1 : R - dr = r := by omega
    have e2 : C - dc = c := by omega
    rw [e1, e2, hv]
  · rw [if_neg heq, h6 R C hC]
    apply if_congr _ rfl rfl
    have hne : ¬ (R = r + dr ∧ C = c + dc) := by
      rintro ⟨rfl, rfl⟩
      exact heq rfl
    omega

/-- Effect of a `forEach` over `src` whose functor stores pixel `(r, c)` at
address `(r + dr) * W + (c + dc)` of an output of row length `W`: it finishes,
keeps the header, and changes exactly the target cells.  The matrix `src`
must not be empty. -/
theorem forEach_store (src out : Mat) (W dr dc : Nat)
    (op : Mat → Nat → Nat × Nat → Except Fault Mat)
    (hop : ∀ (o : Mat) (pixel r c : Nat), r < src.rows → c < src.cols → o.step = W →
      o.start = 0 → op o pixel (r, c) = o.store ((r + dr) * W + (c + dc)) pixel)
    (hstep : out.step = W) (hstart : out.start = 0)
    (hne : 0 < src.rows ∧ 0 < src.cols)
    (hsrc : ∀ r c, r < src.rows → c < src.cols → src.ptr r + c < src.data.length)
    (hcols : src.cols + dc ≤ W) (hrows : (src.rows + dr) * W ≤ out.data.length) :
    ∃ res, src.forEach op out = Except.ok res ∧ Copied src out W dr dc src.rows 0 res := by
  unfold Mat.forEach
  rw [if_neg (by omega)]
  refine foldlE_range_total (fun r o => Copied src out W dr dc r 0 o) _ src.rows out
    (copied_init src out W dr dc hstep hstart) ?_
  intro r o hr ho
  obtain ⟨o', ho', hQ⟩ := foldlE_range_total (fun c o => Copied src out W dr dc r c o)
    (fun s c => src.load (src.ptr r + c) >>= fun pixel => op s pixel (r, c)) src.cols o ho
    (fun c u hc hu => copied_step src out W dr dc r c op hop hsrc hcols hrows hr hc u hu)
  exact ⟨o', ho', copied_row_end src out W dr dc r o' hQ⟩

/-! ## The compositor -/

theorem forEach_ok_nonempty {σ : Type} (m : Mat) (op : σ → Nat → Nat × Nat → Except Fault σ)
    (s s' : σ) (h : m.forEach op s = Except.ok s') : 0 < m.rows ∧ 0 < m.cols := by
  unfold Mat.forEach at h
  split at h
  · cases h
  · omega

theorem sub_eq_ok (m : Mat) (r0 r1 c0 c1 : Nat) (v : Mat)
    (h : m.sub r0 r1 c0 c1 = Except.ok v) (hv : 0 < v.rows ∧ 0 < v.cols) :
    r0 < r1 ∧ r1 ≤ m.rows ∧ c0 < c1 ∧ c1 ≤ m.cols := by
  unfold Mat.sub at h
  split at h
  · split at h
    · injection h with h
      subst h
      simp only [Nat.lt_irrefl, false_and] at hv
    · omega
  · cases h

/-- A finished `combine` passed both range assertions, with arguments in `int`
range, and copied from two matrices that are not empty. -/
theorem combine_ok_imp (top bot : Mat) (hb : bot.wf) (topIdx offset : Nat) (out : Mat)
    (h : combine top bot topIdx offset = Except.ok out) :
    (1 ≤ topIdx ∧ topIdx ≤ top.rows) ∧ offset + offset < bot.cols ∧
      topIdx + bot.rows < intLimit := by
  unfold combine at h
  simp only [bind_eq_ok] at h
  obtain ⟨outRows, h1, _, _, rowEnd, h3, topPart, h4, _, h5, colStart, h6, colEnd, h7,
    botPart, h8, h9⟩ := h
  obtain ⟨e1, l1⟩ := toInt_eq_ok _ _ h1
  obtain ⟨e3, l3⟩ := toInt_eq_ok _ _ h3
  obtain ⟨e6, l6⟩ := toInt_eq_ok _ _ h6
  obtain ⟨e7, l7⟩ := toInt_eq_ok _ _ h7
  have hrows := hb.2.2.1
  have hcols := hb.2.2.2.1
  rw [e3] at h4
  rw [e6, e7] at h8
  have a4 := sub_eq_ok top 0 topIdx 0 top.cols topPart h4 (forEach_ok_nonempty _ _ _ _ h5)
  have a8 := sub_eq_ok bot 0 bot.rows offset _ botPart h8 (forEach_ok_nonempty _ _ _ _ h9)
  unfold intLimit at *
  unfold sizeLimit at *
  omega

/-- What `combine` builds when both ranges are valid and not empty: a zero matrix of
`topIdx + bot.rows` rows and `max top.cols bot.cols` columns with rows
`0 .. topIdx` of `top` on top and, from row `topIdx` on, columns
`offset .. bot.cols - offset` of `bot` at their own column. -/
theorem combine_spec (top bot : Mat) (ht : top.wf) (hb : bot.wf) (topIdx offset : Nat)
    (h1 : 1 ≤ topIdx ∧ topIdx ≤ top.rows) (h2 : offset + offset < bot.cols)
    (h3 : topIdx + bot.rows < intLimit) :
    ∃ out, combine top bot topIdx offset = Except.ok out ∧
      out.rows = topIdx + bot.rows ∧ out.cols = max top.cols bot.cols ∧
      ∀ R C, R < out.rows → C < out.cols → out.get? R C =
        if R < topIdx then (if C < top.cols then top.get? R C else some 0)
        else if offset ≤ C ∧ C < bot.cols - offset then bot.get? (R - topIdx) C
        else some 0 := by
  obtain ⟨t1, t2, t3, t4, t5, t6, t7, t8⟩ := ht
  obtain ⟨b1, b2, b3, b4, b5, b6, b7, b8⟩ := hb
  have hW : (if top.cols ≥ bot.cols then top.cols else bot.cols) = max top.cols bot.cols := by
    split <;> omega
  have e1 : (topIdx + bot.rows) % sizeLimit = topIdx + bot.rows := by
    unfold intLimit at h3; unfold sizeLimit; omega
  have e2 : (bot.cols + sizeLimit - offset) % sizeLimit = bot.cols - offset := by
    unfold intLimit at b4; unfold sizeLimit; omega
  unfold combine
  simp only []
  rw [hW, e1, e2, toInt_of_lt _ h3, toInt_of_lt (max top.cols bot.cols) (by omega),
    toInt_of_lt topIdx (by omega), toInt_of_lt offset (by omega),
    toInt_of_lt (bot.cols - offset) (by omega)]
  simp only [ok_bind]
  rw [sub_ok top 0 topIdx 0 top.cols (by omega), sub_ok bot 0 bot.rows offset (bot.cols - offset)
    (by omega)]
  simp only [ok_bind]
  obtain ⟨res1, hres1, d1, d2, d3, d4, d5, d6⟩ := forEach_store
    { rows := topIdx - 0, cols := top.cols - 0, step := top.step,
      start := top.start + 0 * top.step + 0, data := top.data }
    (Mat.zeros (topIdx + bot.rows) (max top.cols bot.cols)) (max top.cols bot.cols) 0 0
    (fun output pixel pos => output.store (output.ptr pos.1 + pos.2) pixel)
    (by intro o pixel r c _ _ hs hz; simp [Mat.ptr, hs, hz])
    rfl rfl (by simp only []; omega)
    (by
      intro r c hr hc
      simp only [Nat.sub_zero] at hr hc
      simp only [Mat.ptr, t5, t6, t7]
      have := index_lt r top.rows c top.cols (by omega) hc
      omega)
    (by simp only [Nat.sub_zero]; omega)
    (by
      simp only [Mat.zeros, List.length_replicate, Nat.sub_zero, Nat.add_zero]
      exact Nat.mul_le_mul_right _ (by omega))
  rw [hres1]
  simp only [ok_bind]
  obtain ⟨out, hout, c1, c2, c3, c4, c5, c6⟩ := forEach_store
    { rows := bot.rows - 0, cols := bot.cols - offset - offset, step := bot.step,
      start := bot.start + 0 * bot.step + offset, data := bot.data }
    res1 (max top.cols bot.cols) topIdx offset
    (fun output pixel pos =>
      toInt ((pos.1 + topIdx) % sizeLimit) >>= fun row =>
      output.store (output.ptr row + (pos.2 + offset) % sizeLimit) pixel)
    (by
      intro o pixel r c hr hc hs hz
      simp only [Nat.sub_zero] at hr hc
      have m1 : (r + topIdx) % sizeLimit = r + topIdx := by
        unfold intLimit at h3; unfold sizeLimit; omega
      have m2 : (c + offset) % sizeLimit = c + offset := by
        unfold intLimit at b4; unfold sizeLimit; omega
      simp only [m1, m2, toInt_of_lt (r + topIdx) (by omega), ok_bind, Mat.ptr, hs, hz,
        Nat.zero_add])
    d3 d4 (by simp only []; omega)
    (by
      intro r c hr hc
      simp only [Nat.sub_zero] at hr hc
      simp only [Mat.ptr, b5, b6, b7]
      have := index_lt r bot.rows (offset + c) bot.cols hr (by omega)
      omega)
    (by simp only []; omega)
    (by
      rw [d5]
      simp only [Mat.zeros, List.length_replicate, Nat.sub_zero]
      rw [Nat.add_comm])
  refine ⟨out, hout, ?_, ?_, ?_⟩
  · rw [c1, d1]; rfl
  · rw [c2, d2]; rfl
  · intro R C hR hC
    have hRW : R < topIdx + bot.rows := by rw [c1, d1] at hR; exact hR
    have hCW : C < max top.cols bot.cols := by rw [c2, d2] at hC; exact hC
    unfold Mat.get?
    rw [if_pos ⟨hR, hC⟩]
    simp only [Mat.ptr, c3, c4, Nat.zero_add]
    rw [c6 R C hCW, d6 R C hCW]
    have hz : (List.replicate ((topIdx + bot.rows) * max top.cols bot.cols) 0)[
        R * max top.cols bot.cols + C]? = some 0 :=
      List.getElem?_replicate_of_lt (index_lt R _ C _ hRW hCW)
    simp only [Mat.ptr, Mat.zeros, t5, t6, b5, b6, Nat.sub_zero, Nat.zero_add, Nat.add_zero,
      Nat.zero_mul, hz]
    split_ifs <;> first | rfl | omega | skip
    congr 1
    omega

theorem get?_wf (m : Mat) (hm : m.wf) (r c : Nat) (hr : r < m.rows) (hc : c < m.cols) :
    m.get? r c = some (m.data.getD (r * m.cols + c) 0) := by
  obtain ⟨_, _, _, _, m5, m6, m7, _⟩ := hm
  have hlt : r * m.cols + c < m.data.length := by
    rw [m7]
    exact index_lt r m.rows c m.cols hr hc
  unfold Mat.get?
  rw [if_pos ⟨hr, hc⟩]
  simp [Mat.ptr, m5, m6, List.getD, List.getElem?_eq_getElem hlt]

/-! ## Claims about the compositor -/

/-- C4 on the shifted example, as `main` runs it: the search returns cut index
1, offset 1, and `combine` then writes the composite shown.  Pixel `(0, 0)` of
the second image, 5, is not at output `(1, 1)`, which holds pixel `(0, 1)`,
6; output `(1, 2)` and `(1, 3)` stay 0, so pixels `(0, 0)` and `(0, 2)` of the
second image are not in the output at all. -/
theorem combine_places_second_unshifted :
    shiftTop.wf ∧ shiftBot.wf ∧
    searchLoop shiftTop shiftBot =
      Except.ok { offset := 1, bestFitTopIdx := 1, bestFit := 0 } ∧
    combine shiftTop shiftBot 1 1 =
      Except.ok { rows := 3, cols := 4, step := 4, start := 0,
                  data := [0, 0, 0, 0, 0, 6, 0, 0, 0, 8, 0, 0] } ∧
    shiftBot.get? 0 0 = some 5 ∧ shiftBot.get? 0 1 = some 6 ∧ shiftBot.get? 0 2 = some 7 := by
  decide

/-- C5: for decoded images and `topIdx ≤ top.rows`, `combine` finishes when
neither range it copies from is empty (`1 ≤ topIdx`, `2 * offset < bot.cols`),
and in every output it yields cell `(r, c)` holds pixel `(r, c)` of `top` for
all `r < topIdx`, `c < top.cols`. -/
theorem combine_keeps_first_rows (top bot : Mat) (ht : top.wf) (hb : bot.wf)
    (topIdx offset : Nat) (hcut : topIdx ≤ top.rows) :
    (1 ≤ topIdx → offset + offset < bot.cols → topIdx + bot.rows < intLimit →
      ∃ out, combine top bot topIdx offset = Except.ok out) ∧
    ∀ out, combine top bot topIdx offset = Except.ok out →
      ∀ r c, r < topIdx → c < top.cols →
        ∃ v, top.get? r c = some v ∧ out.get? r c = some v := by
  refine ⟨fun h1 h2 h3 => ?_, ?_⟩
  · obtain ⟨out, hout, _⟩ := combine_spec top bot ht hb topIdx offset ⟨h1, hcut⟩ h2 h3
    exact ⟨out, hout⟩
  · intro out h r c hr hc
    obtain ⟨h1, h2, h3⟩ := combine_ok_imp top bot hb topIdx offset out h
    obtain ⟨out', hout', hrows, hcols, hcell⟩ := combine_spec top bot ht hb topIdx offset h1 h2 h3
    rw [h] at hout'
    injection hout' with hout'
    subst hout'
    refine ⟨_, get?_wf top ht r c (by omega) hc, ?_⟩
    rw [hcell r c (by omega) (by omega), if_pos hr, if_pos hc]
    exact get?_wf top ht r c (by omega) hc

/-- Instance of C5: rows 0 and 1 of the running example survive a cut at 2. -/
theorem combine_keeps_first_rows_witness :
    exTop.wf ∧ exBot.wf ∧ 2 ≤ exTop.rows ∧
    ((1 ≤ 2 → 0 + 0 < exBot.cols → 2 + exBot.rows < intLimit →
      ∃ out, combine exTop exBot 2 0 = Except.ok out) ∧
    ∀ out, combine exTop exBot 2 0 = Except.ok out →
      ∀ r c, r < 2 → c < exTop.cols →
        ∃ v, exTop.get? r c = some v ∧ out.get? r c = some v) :=
  ⟨by decide, by decide, by decide,
    combine_keeps_first_rows exTop exBot (by decide) (by decide) 2 0 (by decide)⟩

/-- C6: for decoded images, `combine` finishes when both ranges it copies from
are valid and not empty, and every output it yields has `topIdx + bot.rows`
rows and `max top.cols bot.cols` columns. -/
theorem combine_dimensions (top bot : Mat) (ht : top.wf) (hb : bot.wf)
    (topIdx offset : Nat) :
    (1 ≤ topIdx ∧ topIdx ≤ top.rows → offset + offset < bot.cols →
      topIdx + bot.rows < intLimit →
      ∃ out, combine top bot topIdx offset = Except.ok out) ∧
    ∀ out, combine top bot topIdx offset = Except.ok out →
      out.rows = topIdx + bot.rows ∧ out.cols = max top.cols bot.cols := by
  refine ⟨fun h1 h2 h3 => ?_, ?_⟩
  · obtain ⟨out, hout, _⟩ := combine_spec top bot ht hb topIdx offset h1 h2 h3
    exact ⟨out, hout⟩
  · intro out h
    obtain ⟨h1, h2, h3⟩ := combine_ok_imp top bot hb topIdx offset out h
    obtain ⟨out', hout', hrows, hcols, _⟩ := combine_spec top bot ht hb topIdx offset h1 h2 h3
    rw [h] at hout'
    injection hout' with hout'
    subst hout'
    exact ⟨hrows, hcols⟩

/-- Instance of C6 on the running example: 2 + 2 rows, max 3 2 columns. -/
theorem combine_dimensions_witness :
    exTop.wf ∧ exBot.wf ∧
    ((1 ≤ 2 ∧ 2 ≤ exTop.rows → 0 + 0 < exBot.cols → 2 + exBot.rows < intLimit →
      ∃ out, combine exTop exBot 2 0 = Except.ok out) ∧
    ∀ out, combine exTop exBot 2 0 = Except.ok out →
      out.rows = 2 + exBot.rows ∧ out.cols = max exTop.cols exBot.cols) :=
  ⟨by decide, by decide, combine_dimensions exTop exBot (by decide) (by decide) 2 0⟩

/-- C7: in every output `combine` yields for decoded images, a cell `(R, C)`
of the output is 0 whenever `R < topIdx` and `C ≥ top.cols`, or `R ≥ topIdx`
and (`C < offset` or `C ≥ bot.cols + offset`). -/
theorem combine_uncovered_cells_zero (top bot : Mat) (ht : top.wf) (hb : bot.wf)
    (topIdx offset : Nat) (out : Mat) (h : combine top bot topIdx offset = Except.ok out)
    (R C : Nat) (hR : R < out.rows) (hC : C < out.cols)
    (hun : (R < topIdx ∧ top.cols ≤ C) ∨
      (topIdx ≤ R ∧ (C < offset ∨ bot.cols + offset ≤ C))) :
    out.get? R C = some 0 := by
  obtain ⟨h1, h2, h3⟩ := combine_ok_imp top bot hb topIdx offset out h
  obtain ⟨out', hout', hrows, hcols, hcell⟩ := combine_spec top bot ht hb topIdx offset h1 h2 h3
  rw [h] at hout'
  injection hout' with hout'
  subst hout'
  rw [hcell R C hR hC]
  rcases hun with ⟨a, b⟩ | ⟨a, b⟩
  · rw [if_pos a, if_neg (by omega)]
  · rw [if_neg (by omega), if_neg (by omega)]

/-- Instance of C7: the second image of the shifted example is narrower than
the first, and cell `(1, 0)` of the composite, left of the offset, is 0. -/
theorem combine_uncovered_cells_zero_witness :
    shiftTop.wf ∧ shiftBot.wf ∧
    combine shiftTop shiftBot 1 1 =
      Except.ok { rows := 3, cols := 4, step := 4, start := 0,
                  data := [0, 0, 0, 0, 0, 6, 0, 0, 0, 8, 0, 0] } ∧
    Mat.get? { rows := 3, cols := 4, step := 4, start := 0,
               data := [0, 0, 0, 0, 0, 6, 0, 0, 0, 8, 0, 0] } 1 0 = some 0 :=
  ⟨by decide, by decide, by decide,
    combine_uncovered_cells_zero shiftTop shiftBot (by decide) (by decide) 1 1
      { rows := 3, cols := 4, step := 4, start := 0,
        data := [0, 0, 0, 0, 0, 6, 0, 0, 0, 8, 0, 0] } (by decide) 1 0 (by decide) (by decide)
      (Or.inr ⟨by decide, Or.inl (by decide)⟩)⟩

/-! ## Claims about degenerate and identical inputs -/

theorem searchLoop_single_row (top bot : Mat) (h1 : top.rows = 1) :
    searchLoop top bot =
      Except.ok { offset := 0, bestFitTopIdx := 0, bestFit := sizeLimit - 1 } := by
  unfold searchLoop
  simp only [h1, Nat.sub_self, countDown, foldlE_nil]

/-- With a first image of one row the search leaves its variables at their
initial values and `main` hands them to `combine`, where the row range
`0 .. 0` of the first image is empty and `forEach` on it fails. -/
theorem main_single_row_aborts (top bot : Mat) (ht : top.wf) (hb : bot.wf)
    (h1 : top.rows = 1) : main top bot = Except.error Fault.assertion := by
  have hW : (if top.cols ≥ bot.cols then top.cols else bot.cols) < intLimit := by
    have := ht.2.2.2.1
    have := hb.2.2.2.1
    split <;> assumption
  have e1 : (0 + bot.rows) % sizeLimit = bot.rows := by
    have := hb.2.2.1
    unfold intLimit at this
    unfold sizeLimit
    omega
  unfold main
  rw [if_neg (by have := ht.1; have := ht.2.1; omega),
    if_neg (by have := hb.1; have := hb.2.1; omega), searchLoop_single_row top bot h1]
  simp only [ok_bind]
  unfold combine
  simp only []
  have e2 : (bot.cols + sizeLimit - 0) % sizeLimit = bot.cols := by
    have := hb.2.2.2.1
    unfold intLimit at this
    unfold sizeLimit
    omega
  rw [e1, e2, toInt_of_lt _ hb.2.2.1, toInt_of_lt _ hW,
    toInt_of_lt 0 (by unfold intLimit; omega), toInt_of_lt _ hb.2.2.2.1]
  simp only [ok_bind]
  rw [show top.sub 0 0 0 top.cols =
    Except.ok { rows := 0, cols := 0, step := top.step, start := 0, data := [] } from by
      unfold Mat.sub
      rw [if_pos (by omega), if_pos (by omega)]]
  simp only [ok_bind]
  unfold Mat.forEach
  rw [if_pos (Or.inl rfl)]
  rfl

/-- C8 on a 1 by 2 first image: the search ends with cut index 0, offset 0,
best fit `2 ^ 64 - 1`; `main` reports nothing and calls `combine` with them,
which aborts in OpenCV on the empty row range of the first image. -/
theorem single_row_first_aborts_in_combine :
    narrowBot.wf ∧ exBot.wf ∧ narrowBot.rows = 1 ∧
    searchLoop narrowBot exBot =
      Except.ok { offset := 0, bestFitTopIdx := 0, bestFit := 18446744073709551615 } ∧
    combine narrowBot exBot 0 0 = Except.error Fault.assertion ∧
    main narrowBot exBot = Except.error Fault.assertion := by
  decide

theorem sad_eq_zero_iff (f g : Nat → Nat) (n : Nat) :
    sad f g n = 0 ↔ ∀ k, k < n → f k = g k := by
  induction n with
  | zero => simp [sad]
  | succ n ih =>
    simp only [sad]
    constructor
    · intro h k hk
      have h0 : sad f g n = 0 := by omega
      rcases Nat.lt_succ_iff_lt_or_eq.mp hk with hlt | rfl
      · exact ih.mp h0 k hlt
      · omega
    · intro h
      have h0 := ih.mpr (fun k hk => h k (Nat.lt_succ_of_lt hk))
      have hn := h n (Nat.lt_succ_self n)
      omega

/-- C9 on the second image of the running example searched against itself:
the only candidate pairs row 1 with row 0 and scores `|2-4| + |0-6| = 8`. -/
theorem self_search_positive_score :
    exBot.wf ∧
    searchLoop exBot exBot = Except.ok { offset := 0, bestFitTopIdx := 1, bestFit := 8 } := by
  decide

/-- C9 as the program behaves: for a decoded image `A` of at least two rows,
the search of `A` against `A` finishes with a candidate of offset 0, and its
score is 0 exactly when some row `i` with `1 ≤ i < A.rows` equals row 0. -/
theorem self_search_zero_iff_repeated_row (A : Mat) (hA : A.wf) (h2 : 2 ≤ A.rows) :
    ∃ best, searchLoop A A = Except.ok best ∧
      (1 ≤ best.bestFitTopIdx ∧ best.bestFitTopIdx ≤ A.rows - 1 ∧ best.offset = 0) ∧
      (best.bestFit = 0 ↔
        ∃ i, 1 ≤ i ∧ i < A.rows ∧ ∀ c, c < A.cols → A.get? i c = A.get? 0 c) := by
  have hfit : A.cols ≤ A.rows * A.cols := Nat.le_mul_of_pos_left _ (by omega)
  have hlen := hA.2.2.2.2.2.2.1
  obtain ⟨best, hbest⟩ := searchLoop_total A A hA hA hfit
  obtain ⟨hall, hcase⟩ := searchLoop_inv A A best hbest
  have hscore : ∀ i, 1 ≤ i → i < A.rows → tempFit A A i 0 =
      Except.ok (sad (fun k => A.data.getD (i * A.cols + 0 + k) 0)
        (fun k => A.data.getD k 0) (A.cols - 0)) :=
    fun i _ hi => tempFit_eq_sad A A hA hA i 0 hi hA.2.1 (by omega)
  have hrow : ∀ i, 1 ≤ i → i < A.rows →
      (sad (fun k => A.data.getD (i * A.cols + 0 + k) 0)
        (fun k => A.data.getD k 0) (A.cols - 0) = 0 ↔
      ∀ c, c < A.cols → A.get? i c = A.get? 0 c) := by
    intro i _ hi
    rw [sad_eq_zero_iff]
    constructor
    · intro h c hc
      have := h c (by omega)
      rw [get?_wf A hA i c hi hc, get?_wf A hA 0 c (by omega) hc]
      simp only [Nat.add_zero, Nat.zero_mul, Nat.zero_add] at this ⊢
      rw [this]
    · intro h c hc
      have := h c (by omega)
      rw [get?_wf A hA i c hi (by omega), get?_wf A hA 0 c (by omega) (by omega)] at this
      simp only [Nat.add_zero, Nat.zero_mul, Nat.zero_add] at this ⊢
      exact Option.some.inj this
  rcases hcase with h0 | ⟨c1, _, c3, _⟩
  · exact absurd h0 (searchLoop_found A A hA hA h2 best hbest)
  · obtain ⟨i1, i2, i3⟩ := c1
    have hoff : best.offset = 0 := by
      rw [Nat.min_self] at i3
      omega
    refine ⟨best, hbest, ⟨i1, i2, hoff⟩, ?_⟩
    rw [hoff, hscore best.bestFitTopIdx i1 (by omega)] at c3
    injection c3 with c3
    constructor
    · intro hz
      refine ⟨best.bestFitTopIdx, i1, by omega, ?_⟩
      exact (hrow best.bestFitTopIdx i1 (by omega)).mp (by rw [c3]; exact hz)
    · rintro ⟨i, hi1, hi2, hi3⟩
      obtain ⟨t, ht, hle⟩ := hall i 0 ⟨hi1, by omega, Nat.zero_le _⟩
        (by unfold earlier; omega)
      rw [hscore i hi1 hi2] at ht
      injection ht with ht
      have := (hrow i hi1 hi2).mpr hi3
      omega

/-- Instance of the amended C9 on the running example's first image, whose
rows 1 and 2 both differ from row 0. -/
theorem self_search_zero_iff_repeated_row_witness :
    exTop.wf ∧ 2 ≤ exTop.rows ∧
    ∃ best, searchLoop exTop exTop = Except.ok best ∧
      (1 ≤ best.bestFitTopIdx ∧ best.bestFitTopIdx ≤ exTop.rows - 1 ∧ best.offset = 0) ∧
      (best.bestFit = 0 ↔
        ∃ i, 1 ≤ i ∧ i < exTop.rows ∧ ∀ c, c < exTop.cols → exTop.get? i c = exTop.get? 0 c) :=
  ⟨by decide, by decide, self_search_zero_iff_repeated_row exTop (by decide) (by decide)⟩

/-! ## Claims about the range of the search result -/

/-- C11: for decoded images `top` (at least two rows) and `bot`, the search
finishes whenever the scorer's reads stay inside the buffer of `bot`, and a
finished search returns `1 ≤ cutIndex ≤ top.rows - 1` and
`offset ≤ top.cols - minWidth`, so `offset = 0` when `top.cols ≤ bot.cols`;
every composite built from it has at most `top.rows - 1 + bot.rows` rows. -/
theorem search_result_in_range (top bot : Mat) (ht : top.wf) (hb : bot.wf)
    (h2 : 2 ≤ top.rows) :
    (top.cols ≤ bot.rows * bot.cols → ∃ best, searchLoop top bot = Except.ok best) ∧
    ∀ best, searchLoop top bot = Except.ok best →
      (1 ≤ best.bestFitTopIdx ∧ best.bestFitTopIdx ≤ top.rows - 1) ∧
      best.offset ≤ top.cols - min top.cols bot.cols ∧
      (top.cols ≤ bot.cols → best.offset = 0) ∧
      ∀ out, combine top bot best.bestFitTopIdx best.offset = Except.ok out →
        out.rows ≤ top.rows - 1 + bot.rows := by
  refine ⟨searchLoop_total top bot ht hb, ?_⟩
  intro best h
  obtain ⟨_, hbest⟩ := searchLoop_inv top bot best h
  rcases hbest with h0 | ⟨⟨c1, c2, c3⟩, _, _, _⟩
  · exact absurd h0 (searchLoop_found top bot ht hb h2 best h)
  · refine ⟨⟨c1, c2⟩, c3, ?_, ?_⟩
    · intro hle
      rw [Nat.min_eq_left hle] at c3
      omega
    · intro out hout
      obtain ⟨a1, a2, a3⟩ := combine_ok_imp top bot hb _ _ out hout
      obtain ⟨out', hout', hrows, _⟩ := combine_spec top bot ht hb _ _ a1 a2 a3
      rw [hout] at hout'
      injection hout' with hout'
      subst hout'
      omega

/-- Instance of C11 on the running example (3 by 3 against 2 by 2). -/
theorem search_result_in_range_witness :
    exTop.wf ∧ exBot.wf ∧ 2 ≤ exTop.rows ∧
    ((exTop.cols ≤ exBot.rows * exBot.cols → ∃ best, searchLoop exTop exBot = Except.ok best) ∧
    ∀ best, searchLoop exTop exBot = Except.ok best →
      (1 ≤ best.bestFitTopIdx ∧ best.bestFitTopIdx ≤ exTop.rows - 1) ∧
      best.offset ≤ exTop.cols - min exTop.cols exBot.cols ∧
      (exTop.cols ≤ exBot.cols → best.offset = 0) ∧
      ∀ out, combine exTop exBot best.bestFitTopIdx best.offset = Except.ok out →
        out.rows ≤ exTop.rows - 1 + exBot.rows) :=
  ⟨by decide, by decide, by decide,
    search_result_in_range exTop exBot (by decide) (by decide) (by decide)⟩

/-- C12: for decoded images, `combine` with `topIdx = top.rows` and offset 0
finishes when the row count fits an `int`, and every output it yields holds
`top` in its first `top.rows` rows and `bot` in the `bot.rows` rows below. -/
theorem combine_pure_stacking (top bot : Mat) (ht : top.wf) (hb : bot.wf) :
    (top.rows + bot.rows < intLimit → ∃ out, combine top bot top.rows 0 = Except.ok out) ∧
    ∀ out, combine top bot top.rows 0 = Except.ok out →
      (∀ r c, r < top.rows → c < top.cols →
        ∃ v, top.get? r c = some v ∧ out.get? r c = some v) ∧
      (∀ r c, r < bot.rows → c < bot.cols →
        ∃ v, bot.get? r c = some v ∧ out.get? (top.rows + r) c = some v) := by
  have h1 : 1 ≤ top.rows ∧ top.rows ≤ top.rows := ⟨ht.1, Nat.le_refl _⟩
  have h2 : 0 + 0 < bot.cols := by have := hb.2.1; omega
  refine ⟨fun h3 => ?_, ?_⟩
  · obtain ⟨out, hout, _⟩ := combine_spec top bot ht hb top.rows 0 h1 h2 h3
    exact ⟨out, hout⟩
  · intro out h
    obtain ⟨_, _, h3⟩ := combine_ok_imp top bot hb top.rows 0 out h
    obtain ⟨out', hout', hrows, hcols, hcell⟩ := combine_spec top bot ht hb top.rows 0 h1 h2 h3
    rw [h] at hout'
    injection hout' with hout'
    subst hout'
    refine ⟨?_, ?_⟩
    · intro r c hr hc
      refine ⟨_, get?_wf top ht r c hr hc, ?_⟩
      rw [hcell r c (by omega) (by omega), if_pos hr, if_pos hc]
      exact get?_wf top ht r c hr hc
    · intro r c hr hc
      refine ⟨_, get?_wf bot hb r c hr hc, ?_⟩
      rw [hcell (top.rows + r) c (by omega) (by omega), if_neg (by omega),
        if_pos ⟨Nat.zero_le _, by omega⟩]
      have e : top.rows + r - top.rows = r := by omega
      rw [e]
      exact get?_wf bot hb r c hr hc

/-- Instance of C12: the running example stacked, 3 rows over 2. -/
theorem combine_pure_stacking_witness :
    exTop.wf ∧ exBot.wf ∧
    ((exTop.rows + exBot.rows < intLimit →
      ∃ out, combine exTop exBot exTop.rows 0 = Except.ok out) ∧
    ∀ out, combine exTop exBot exTop.rows 0 = Except.ok out →
      (∀ r c, r < exTop.rows → c < exTop.cols →
        ∃ v, exTop.get? r c = some v ∧ out.get? r c = some v) ∧
      (∀ r c, r < exBot.rows → c < exBot.cols →
        ∃ v, exBot.get? r c = some v ∧ out.get? (exTop.rows + r) c = some v)) :=
  ⟨by decide, by decide, combine_pure_stacking exTop exBot (by decide) (by decide)⟩

/-! ## Claims about failures -/

/-- C16: when either image handed to `main` has no rows or no columns, `main`
stops at its guards with exit status 1: the outcome carries neither a search
result nor an output. -/
theorem main_rejects_empty_buffer (top bot : Mat)
    (h : top.rows = 0 ∨ top.cols = 0 ∨ bot.rows = 0 ∨ bot.cols = 0) :
    main top bot = Except.ok Outcome.failedToOpen ∧ Outcome.failedToOpen.exitCode = 1 := by
  refine ⟨?_, rfl⟩
  unfold main
  by_cases ht : top.rows < 1 ∨ top.cols < 1
  · rw [if_pos ht]
  · rw [if_neg ht, if_pos (by omega)]

/-- Instance of C16: the second image failed to decode. -/
theorem main_rejects_empty_buffer_witness :
    (exTop.rows = 0 ∨ exTop.cols = 0 ∨ noImage.rows = 0 ∨ noImage.cols = 0) ∧
    main exTop noImage = Except.ok Outcome.failedToOpen ∧
    Outcome.failedToOpen.exitCode = 1 :=
  ⟨by decide, main_rejects_empty_buffer exTop noImage (by decide)⟩

/-- C17 on a 2 by 4 first image against the 2 by 2 second image of the running
example: the search returns cut index 1, offset 2 with score 0, the column
range `cv::Range(2, 2 - 2)` that `combine` takes from the second image fails
the assertion of `cv::Mat::operator()`, and `main` ends there. -/
theorem composite_of_search_result_aborts :
    farTop.wf ∧ exBot.wf ∧ 2 ≤ farTop.rows ∧
    searchLoop farTop exBot =
      Except.ok { offset := 2, bestFitTopIdx := 1, bestFit := 0 } ∧
    exBot.sub 0 exBot.rows 2 ((exBot.cols + sizeLimit - 2) % sizeLimit) =
      Except.error Fault.assertion ∧
    combine farTop exBot 1 2 = Except.error Fault.assertion ∧
    main farTop exBot = Except.error Fault.assertion := by
  decide

/-- C18: in every output `combine` yields for decoded images, pixel `(r, c)` of
the second image with `offset ≤ c < bot.cols - offset` is at output
`(r + topIdx, c)`, its own column, and every output cell in a row `≥ topIdx`
at a column `< offset` or `≥ bot.cols - offset` is 0; `combine` yields an
output when both ranges it copies from are valid and not empty. -/
theorem combine_offset_applied_twice (top bot : Mat) (ht : top.wf) (hb : bot.wf)
    (topIdx offset : Nat) :
    (1 ≤ topIdx ∧ topIdx ≤ top.rows → offset + offset < bot.cols →
      topIdx + bot.rows < intLimit →
      ∃ out, combine top bot topIdx offset = Except.ok out) ∧
    ∀ out, combine top bot topIdx offset = Except.ok out →
      offset + offset ≤ bot.cols ∧
      (∀ r c, r < bot.rows → offset ≤ c → c < bot.cols - offset →
        ∃ v, bot.get? r c = some v ∧ out.get? (r + topIdx) c = some v) ∧
      (∀ R C, topIdx ≤ R → R < out.rows → C < out.cols →
        (C < offset ∨ bot.cols - offset ≤ C) → out.get? R C = some 0) := by
  refine ⟨fun h1 h2 h3 => ?_, ?_⟩
  · obtain ⟨out, hout, _⟩ := combine_spec top bot ht hb topIdx offset h1 h2 h3
    exact ⟨out, hout⟩
  · intro out h
    obtain ⟨h1, h2, h3⟩ := combine_ok_imp top bot hb topIdx offset out h
    obtain ⟨out', hout', hrows, hcols, hcell⟩ := combine_spec top bot ht hb topIdx offset h1 h2 h3
    rw [h] at hout'
    injection hout' with hout'
    subst hout'
    refine ⟨by omega, ?_, ?_⟩
    · intro r c hr hc1 hc2
      refine ⟨_, get?_wf bot hb r c hr (by omega), ?_⟩
      rw [hcell (r + topIdx) c (by omega) (by omega), if_neg (by omega), if_pos ⟨hc1, hc2⟩]
      have e : r + topIdx - topIdx = r := by omega
      rw [e]
      exact get?_wf bot hb r c hr (by omega)
    · intro R C hR1 hR2 hC hout
      rw [hcell R C hR2 hC, if_neg (by omega), if_neg (by omega)]

/-- Instance of C18 on the shifted example at cut index 1, offset 1. -/
theorem combine_offset_applied_twice_witness :
    shiftTop.wf ∧ shiftBot.wf ∧
    ((1 ≤ 1 ∧ 1 ≤ shiftTop.rows → 1 + 1 < shiftBot.cols → 1 + shiftBot.rows < intLimit →
      ∃ out, combine shiftTop shiftBot 1 1 = Except.ok out) ∧
    ∀ out, combine shiftTop shiftBot 1 1 = Except.ok out →
      1 + 1 ≤ shiftBot.cols ∧
      (∀ r c, r < shiftBot.rows → 1 ≤ c → c < shiftBot.cols - 1 →
        ∃ v, shiftBot.get? r c = some v ∧ out.get? (r + 1) c = some v) ∧
      (∀ R C, 1 ≤ R → R < out.rows → C < out.cols →
        (C < 1 ∨ shiftBot.cols - 1 ≤ C) → out.get? R C = some 0)) :=
  ⟨by decide, by decide, combine_offset_applied_twice shiftTop shiftBot (by decide) (by decide) 1 1⟩

/-! ## Claims about the scorer on rows -/

/-- Scoring one row against another from offset 0: when the reads of `b`
stay inside its buffer, the result is the sum of absolute differences over the
`a.cols` elements of the rows. -/
theorem compareRows_row (a b : Mat) (ha : a.isRow) (hb : ∀ p ∈ b.data, p < 256)
    (hfit : b.start + a.cols ≤ b.data.length) :
    compareRows a b 0 =
      Except.ok (sad (fun k => a.data.getD (a.start + k) 0)
        (fun k => b.data.getD (b.start + k) 0) a.cols) := by
  obtain ⟨a1, a2, a3, a4, a5⟩ := ha
  unfold compareRows Mat.forEach
  rw [toInt_of_lt 0 (by unfold intLimit; omega)]
  simp only [ok_bind]
  rw [sub_ok a 0 a.rows 0 a.cols (by omega)]
  simp only [ok_bind]
  rw [if_neg (by omega), a1, show List.range (1 - 0) = [0] from rfl, foldlE_cons]
  simp only [foldlE_nil, bind_ok_right]
  simp only [Mat.ptr, Nat.zero_mul, Nat.add_zero, Nat.sub_zero, pure_eq_ok]
  refine foldlE_range_eq _ (fun k => sad (fun k => a.data.getD (a.start + k) 0)
    (fun k => b.data.getD (b.start + k) 0) k) a.cols ?_
  intro k hk
  rw [load_of_lt _ (a.start + k) (by simp only []; omega), load_of_lt b (b.start + k) (by omega)]
  simp only [ok_bind]
  have hb1 := sad_le (fun k => a.data.getD (a.start + k) 0)
    (fun k => b.data.getD (b.start + k) 0) k (fun _ _ => getD_lt _ a5 _)
    (fun _ _ => getD_lt _ hb _)
  have h1 := getD_lt _ a5 (a.start + k)
  have h2 := getD_lt _ hb (b.start + k)
  simp only [sad]
  congr 1
  apply Nat.mod_eq_of_lt
  unfold intLimit at a3
  unfold sizeLimit
  omega

theorem sad_comm (f g : Nat → Nat) (n : Nat) : sad f g n = sad g f n := by
  induction n with
  | zero => rfl
  | succ n ih =>
    simp only [sad, ih]
    omega

/-- Row `r` of a decoded image, as `main` slices it, is a row in the sense of
`Mat.isRow` and holds the pixels of row `r`. -/
theorem sub_row (B : Mat) (hB : B.wf) (r : Nat) (hr : r < B.rows) :
    ∃ row, B.sub r (r + 1) 0 B.cols = Except.ok row ∧ row.isRow ∧ row.cols = B.cols ∧
      ∀ k, k < B.cols → row.data.getD (row.start + k) 0 = B.data.getD (r * B.cols + k) 0 := by
  obtain ⟨b1, b2, b3, b4, b5, b6, b7, b8⟩ := hB
  refine ⟨_, sub_ok B r (r + 1) 0 B.cols (by omega), ⟨by simp only []; omega, by simp only []; omega,
    by simp only []; omega, ?_, b8⟩, by simp only []; omega, ?_⟩
  · simp only [b5, b6, b7]
    have := index_lt r B.rows (B.cols - 1) B.cols hr (by omega)
    omega
  · intro k _
    simp only [b5, b6, Nat.zero_add, Nat.add_zero]

theorem get?_row (a : Mat) (ha : a.isRow) (k : Nat) (hk : k < a.cols) :
    a.get? 0 k = some (a.data.getD (a.start + k) 0) := by
  obtain ⟨a1, _, _, a4, _⟩ := ha
  have hlt : a.start + k < a.data.length := by omega
  unfold Mat.get?
  rw [if_pos ⟨by omega, hk⟩]
  simp [Mat.ptr, List.getD, List.getElem?_eq_getElem hlt]

/-- Two rows of equal length holding the same pixels score 0. -/
theorem compareRows_same (a b : Mat) (ha : a.isRow) (hb : b.isRow) (hn : a.cols = b.cols)
    (hsame : ∀ k, k < a.cols → a.get? 0 k = b.get? 0 k) :
    compareRows a b 0 = Except.ok 0 := by
  rw [compareRows_row a b ha hb.2.2.2.2 (by have := hb.2.2.2.1; omega)]
  congr 1
  rw [sad_eq_zero_iff]
  intro k hk
  have := hsame k hk
  rw [get?_row a ha k hk, get?_row b hb k (by omega)] at this
  exact Option.some.inj this

/-- C14: row `r` of a decoded image scored against itself from offset 0 gives
0, and so do any two rows of equal length that hold the same pixels. -/
theorem identical_rows_score_zero (B : Mat) (hB : B.wf) (r : Nat) (hr : r < B.rows) :
    (∃ row, B.sub r (r + 1) 0 B.cols = Except.ok row ∧
      compareRows row row 0 = Except.ok 0) ∧
    ∀ a b : Mat, a.isRow → b.isRow → a.cols = b.cols →
      (∀ k, k < a.cols → a.get? 0 k = b.get? 0 k) → compareRows a b 0 = Except.ok 0 := by
  refine ⟨?_, compareRows_same⟩
  obtain ⟨row, hrow, his, _, _⟩ := sub_row B hB r hr
  exact ⟨row, hrow, compareRows_same row row his his rfl (fun _ _ => rfl)⟩

/-- Instance of C14: row 1 of the running example's first image. -/
theorem identical_rows_score_zero_witness :
    exTop.wf ∧ 1 < exTop.rows ∧
    ((∃ row, exTop.sub 1 (1 + 1) 0 exTop.cols = Except.ok row ∧
      compareRows row row 0 = Except.ok 0) ∧
    ∀ a b : Mat, a.isRow → b.isRow → a.cols = b.cols →
      (∀ k, k < a.cols → a.get? 0 k = b.get? 0 k) → compareRows a b 0 = Except.ok 0) :=
  ⟨by decide, by decide, identical_rows_score_zero exTop (by decide) 1 (by decide)⟩

/-- C15: for two rows of equal length the scorer returns a score, and returns
the same score with its two row arguments swapped. -/
theorem score_symmetric (a b : Mat) (ha : a.isRow) (hb : b.isRow) (hn : a.cols = b.cols) :
    compareRows a b 0 = compareRows b a 0 ∧ ∃ s, compareRows a b 0 = Except.ok s := by
  rw [compareRows_row a b ha hb.2.2.2.2 (by have := hb.2.2.2.1; omega),
    compareRows_row b a hb ha.2.2.2.2 (by have := ha.2.2.2.1; omega), hn,
    sad_comm]
  exact ⟨rfl, _, rfl⟩

/-- Instance of C15: the row `[4, 6]` against row 1 of `exBot`, `[2, 0]`,
scores 8 either way. -/
theorem score_symmetric_witness :
    narrowBot.isRow ∧ exBotRow1.isRow ∧ narrowBot.cols = exBotRow1.cols ∧
    compareRows narrowBot exBotRow1 0 = Except.ok 8 ∧
    (compareRows narrowBot exBotRow1 0 = compareRows exBotRow1 narrowBot 0 ∧
      ∃ s, compareRows narrowBot exBotRow1 0 = Except.ok s) :=
  ⟨by decide, by decide, by decide, by decide,
    score_symmetric narrowBot exBotRow1 (by decide) (by decide) (by decide)⟩

/-! ## Claims about the size of scores and uniform images -/

/-- A computed score means every read of `bot` stayed inside its buffer. -/
theorem tempFit_ok_fit (top bot : Mat) (ht : top.wf) (hb : bot.wf) (i j t : Nat)
    (hi : i < top.rows) (hj : j < top.cols) (h : tempFit top bot i j = Except.ok t) :
    top.cols - j ≤ bot.data.length := by
  rw [tempFit_eq_fold top bot ht hb i j hi hj] at h
  refine foldlE_range_inv (fun k _ => k ≤ bot.data.length) _ _ 0 t (Nat.zero_le _) ?_ h
  intro k d d' _ _ hstep
  simp only [bind_eq_ok] at hstep
  obtain ⟨_, _, other, ho, _⟩ := hstep
  exact load_lt bot k other ho

/-- C19: for decoded images, a score computed for a candidate `(i, j)` is the
plain sum of the absolute differences (no reduction modulo `2 ^ 64` takes
effect), is at most 255 per compared element and is below the initial best
fit `2 ^ 64 - 1`.  With at least two rows in `top`, the first candidate
visited, `(top.rows - 1, 0)`, replaces the initial values, and a finished
search reports the score computed for the candidate it returns. -/
theorem score_below_initial_best (top bot : Mat) (ht : top.wf) (hb : bot.wf) :
    (∀ i j t, 1 ≤ i → i ≤ top.rows - 1 → j ≤ top.cols - min top.cols bot.cols →
      tempFit top bot i j = Except.ok t →
      t = sad (fun k => top.data.getD (i * top.cols + j + k) 0)
        (fun k => bot.data.getD k 0) (top.cols - j) ∧
      t ≤ 255 * (top.cols - j) ∧ t < sizeLimit - 1) ∧
    (2 ≤ top.rows → ∀ t, tempFit top bot (top.rows - 1) 0 = Except.ok t →
      searchStep top bot (top.rows - 1)
        { offset := 0, bestFitTopIdx := 0, bestFit := sizeLimit - 1 } 0 =
        Except.ok { offset := 0, bestFitTopIdx := top.rows - 1, bestFit := t }) ∧
    (2 ≤ top.rows → ∀ best, searchLoop top bot = Except.ok best →
      best.bestFit < sizeLimit - 1 ∧
      tempFit top bot best.bestFitTopIdx best.offset = Except.ok best.bestFit) := by
  have htc := ht.2.1
  have hbc := hb.2.1
  have h4 := ht.2.2.2.1
  have hscore : ∀ i j t, i < top.rows → j < top.cols → tempFit top bot i j = Except.ok t →
      t = sad (fun k => top.data.getD (i * top.cols + j + k) 0)
        (fun k => bot.data.getD k 0) (top.cols - j) ∧
      t ≤ 255 * (top.cols - j) ∧ t < sizeLimit - 1 := by
    intro i j t hi hj h
    have hfit := tempFit_ok_fit top bot ht hb i j t hi hj h
    have hle := tempFit_le top bot ht hb i j t hi hj h
    rw [tempFit_eq_sad top bot ht hb i j hi hj hfit] at h
    injection h with h
    refine ⟨h.symm, hle, ?_⟩
    unfold intLimit at h4
    unfold sizeLimit
    omega
  refine ⟨?_, ?_, ?_⟩
  · intro i j t h1 hi hj h
    exact hscore i j t (by omega) (by omega) h
  · intro h2 t h
    obtain ⟨_, _, hlt⟩ := hscore (top.rows - 1) 0 t (by omega) (by omega) h
    unfold searchStep
    rw [h]
    simp only [ok_bind]
    rw [if_pos hlt]
    rfl
  · intro h2 best h
    obtain ⟨_, hbest⟩ := searchLoop_inv top bot best h
    rcases hbest with h0 | ⟨⟨c1, c2, c3⟩, _, c4, _⟩
    · exact absurd h0 (searchLoop_found top bot ht hb h2 best h)
    · exact ⟨(hscore _ _ _ (by omega) (by omega) c4).2.2, c4⟩

/-- Instance of C19 on the running example (3 by 3 against 2 by 2). -/
theorem score_below_initial_best_witness :
    exTop.wf ∧ exBot.wf ∧
    ((∀ i j t, 1 ≤ i → i ≤ exTop.rows - 1 → j ≤ exTop.cols - min exTop.cols exBot.cols →
      tempFit exTop exBot i j = Except.ok t →
      t = sad (fun k => exTop.data.getD (i * exTop.cols + j + k) 0)
        (fun k => exBot.data.getD k 0) (exTop.cols - j) ∧
      t ≤ 255 * (exTop.cols - j) ∧ t < sizeLimit - 1) ∧
    (2 ≤ exTop.rows → ∀ t, tempFit exTop exBot (exTop.rows - 1) 0 = Except.ok t →
      searchStep exTop exBot (exTop.rows - 1)
        { offset := 0, bestFitTopIdx := 0, bestFit := sizeLimit - 1 } 0 =
        Except.ok { offset := 0, bestFitTopIdx := exTop.rows - 1, bestFit := t }) ∧
    (2 ≤ exTop.rows → ∀ best, searchLoop exTop exBot = Except.ok best →
      best.bestFit < sizeLimit - 1 ∧
      tempFit exTop exBot best.bestFitTopIdx best.offset = Except.ok best.bestFit)) :=
  ⟨by decide, by decide, score_below_initial_best exTop exBot (by decide) (by decide)⟩

theorem getD_const (l : List Nat) (v : Nat) (hl : ∀ p ∈ l, p = v) (a : Nat)
    (ha : a < l.length) : l.getD a 0 = v := by
  have : l.getD a 0 = l[a] := by simp [List.getD, List.getElem?_eq_getElem ha]
  rw [this]
  exact hl _ (List.getElem_mem ha)

theorem get?_const (m : Mat) (hm : m.wf) (v : Nat) (hv : ∀ p ∈ m.data, p = v) (r c : Nat)
    (hr : r < m.rows) (hc : c < m.cols) : m.get? r c = some v := by
  rw [get?_wf m hm r c hr hc, getD_const m.data v hv]
  rw [hm.2.2.2.2.2.2.1]
  exact index_lt r m.rows c m.cols hr hc

/-- C13: for decoded images of equal width whose pixels all have the value
`v`, the first with at least two rows, the search returns score 0 at a cut
index in `1 .. top.rows - 1` (offset 0); `combine` with that result finishes
when the row count fits an `int`, and every output it yields has
`cutIndex + bot.rows` rows, the common width, and `v` in every cell. -/
theorem uniform_images_align_and_composite (top bot : Mat) (ht : top.wf) (hb : bot.wf)
    (v : Nat) (hvt : ∀ p ∈ top.data, p = v) (hvb : ∀ p ∈ bot.data, p = v)
    (hw : top.cols = bot.cols) (h2 : 2 ≤ top.rows) :
    ∃ best, searchLoop top bot = Except.ok best ∧ best.bestFit = 0 ∧
      (1 ≤ best.bestFitTopIdx ∧ best.bestFitTopIdx ≤ top.rows - 1) ∧ best.offset = 0 ∧
      (best.bestFitTopIdx + bot.rows < intLimit →
        ∃ out, combine top bot best.bestFitTopIdx best.offset = Except.ok out) ∧
      ∀ out, combine top bot best.bestFitTopIdx best.offset = Except.ok out →
        out.rows = best.bestFitTopIdx + bot.rows ∧ out.cols = top.cols ∧
        ∀ R C, R < out.rows → C < out.cols → out.get? R C = some v := by
  have hbr := hb.1
  have hbc := hb.2.1
  have htlen := ht.2.2.2.2.2.2.1
  have hblen := hb.2.2.2.2.2.2.1
  have hfit : top.cols ≤ bot.rows * bot.cols := by
    rw [hw]
    exact Nat.le_mul_of_pos_left _ (by omega)
  obtain ⟨best, hbest⟩ := searchLoop_total top bot ht hb hfit
  obtain ⟨_, hcase⟩ := searchLoop_inv top bot best hbest
  rcases hcase with h0 | ⟨⟨c1, c2, c3⟩, _, c4, _⟩
  · exact absurd h0 (searchLoop_found top bot ht hb h2 best hbest)
  · have hoff : best.offset = 0 := by
      rw [hw, Nat.min_self] at c3
      omega
    have hcut : 1 ≤ best.bestFitTopIdx ∧ best.bestFitTopIdx ≤ top.rows := ⟨c1, by omega⟩
    have hzero : best.bestFit = 0 := by
      rw [hoff, tempFit_eq_sad top bot ht hb best.bestFitTopIdx 0 (by omega) (by omega)
        (by omega)] at c4
      injection c4 with c4
      rw [← c4, sad_eq_zero_iff]
      intro k hk
      have hin : best.bestFitTopIdx * top.cols + 0 + k < top.data.length := by
        have := index_lt best.bestFitTopIdx top.rows k top.cols (by omega) (by omega)
        omega
      rw [getD_const top.data v hvt _ hin, getD_const bot.data v hvb k (by omega)]
    refine ⟨best, hbest, hzero, ⟨c1, c2⟩, hoff, ?_, ?_⟩
    · intro h3
      obtain ⟨out, hout, _⟩ := combine_spec top bot ht hb best.bestFitTopIdx best.offset hcut
        (by omega) h3
      exact ⟨out, hout⟩
    · intro out hout
      obtain ⟨a1, a2, a3⟩ := combine_ok_imp top bot hb _ _ out hout
      obtain ⟨out', hout', hrows, hcols, hcell⟩ := combine_spec top bot ht hb _ _ a1 a2 a3
      rw [hout] at hout'
      injection hout' with hout'
      subst hout'
      have hcols2 : out.cols = top.cols := by
        rw [hcols, hw, Nat.max_self]
      refine ⟨hrows, hcols2, ?_⟩
      intro R C hR hC
      rw [hcell R C hR hC]
      by_cases hRc : R < best.bestFitTopIdx
      · rw [if_pos hRc, if_pos (by omega)]
        exact get?_const top ht v hvt R C (by omega) (by omega)
      · rw [if_neg hRc, if_pos ⟨by omega, by omega⟩]
        exact get?_const bot hb v hvb _ C (by omega) (by omega)

/-- Instance of C13: the 4 by 3 image of 10s against the 2 by 3 image of 10s;
the search returns cut index 3 and the composite is the 5 by 3 image of 10s. -/
theorem uniform_images_align_and_composite_witness :
    tens4x3.wf ∧ tens2x3.wf ∧
    searchLoop tens4x3 tens2x3 =
      Except.ok { offset := 0, bestFitTopIdx := 3, bestFit := 0 } ∧
    combine tens4x3 tens2x3 3 0 =
      Except.ok { rows := 5, cols := 3, step := 3, start := 0,
                  data := [10, 10, 10, 10, 10, 10, 10, 10, 10, 10, 10, 10, 10, 10, 10] } ∧
    ∃ best, searchLoop tens4x3 tens2x3 = Except.ok best ∧ best.bestFit = 0 ∧
      (1 ≤ best.bestFitTopIdx ∧ best.bestFitTopIdx ≤ tens4x3.rows - 1) ∧ best.offset = 0 ∧
      (best.bestFitTopIdx + tens2x3.rows < intLimit →
        ∃ out, combine tens4x3 tens2x3 best.bestFitTopIdx best.offset = Except.ok out) ∧
      ∀ out, combine tens4x3 tens2x3 best.bestFitTopIdx best.offset = Except.ok out →
        out.rows = best.bestFitTopIdx + tens2x3.rows ∧ out.cols = tens4x3.cols ∧
        ∀ R C, R < out.rows → C < out.cols → out.get? R C = some 10 :=
  ⟨by decide, by decide, by decide, by decide,
    uniform_images_align_and_composite tens4x3 tens2x3 (by decide) (by decide) 10
      (by decide) (by decide) (by decide) (by decide)⟩

end Stitching
